import Mathlib

/-!
Verification of the schema-driven Socrata→BigQuery replication tool
(`jehiah/socrata_to_bigquery`) against its natural-language specification.

The Go sources are shallowly embedded: pure functions become Lean functions,
machine integers become `Nat` with explicit reduction modulo `2^64` where Go's
`uint64` wrap-around matters, fallible functions return `Except`/`Option`, and
the goroutine/channel machinery of `ConcurrentLimit` becomes an explicit step
relation on task states.  Dynamic `interface{}` values decoded from JSON are
embedded as the closed tagged type `Value`; Go maps are embedded as association
lists (`Record` output maps in schema-iteration order, decoded objects in
key-sorted order, matching Go's sorted-key marshalling of maps).
-/

set_option maxHeartbeats 1000000
set_option linter.unnecessarySeqFocus false

/-- The modulus of Go's `uint64` arithmetic. -/
def U64 : Nat := 18446744073709551616

/-! ## Chunk retry loop (`syncOne`, sync.go lines 149-161)

`CopyChunk` returns an `error`; the caller distinguishes `io.EOF` (via
`errors.Is`) from other errors.  One chunk goroutine runs
`for i := 0; i < 3; i++ { err := CopyChunk(...); if errors.Is(err, io.EOF)
{ log.Printf(...); continue }; if err != nil { log.Fatal(err) }; break }`
followed unconditionally by `wg.Done()`. -/

/-- Result of one `CopyChunk` attempt as classified by the retry loop in
`syncOne`: an `io.EOF` truncation error, any other error, or success. -/
inductive AttemptResult where
  | eofErr
  | otherErr (msg : String)
  | okDone
deriving DecidableEq

/-- How one chunk goroutine of `syncOne` ends: the chunk copied successfully
(`completed`), the process was aborted by `log.Fatal` (`fatalExit`), or the
retry loop ran out of tries and fell through to `wg.Done()` with the failure
only logged (`exhaustedSilently`). -/
inductive ChunkEnd where
  | completed
  | fatalExit (msg : String)
  | exhaustedSilently
deriving DecidableEq

/-- The retry loop of `syncOne` (sync.go 149-159): `res i` is the result of the
`CopyChunk` call on iteration `i`; `tries` is the number of loop iterations
remaining. -/
def chunkRetryLoop (res : Nat → AttemptResult) (i tries : Nat) : ChunkEnd :=
  match tries with
  | 0 => .exhaustedSilently
  | t + 1 =>
    match res i with
    | .eofErr => chunkRetryLoop res (i + 1) t
    | .otherErr m => .fatalExit m
    | .okDone => .completed

/-- One chunk goroutine body of `syncOne`: the retry loop with the 3-iteration
ceiling of `for i := 0; i < 3; i++`. -/
def runChunkTask (res : Nat → AttemptResult) : ChunkEnd :=
  chunkRetryLoop res 0 3

/-- Number of `CopyChunk` calls the retry loop makes. -/
def chunkRetryCalls (res : Nat → AttemptResult) (i tries : Nat) : Nat :=
  match tries with
  | 0 => 0
  | t + 1 =>
    match res i with
    | .eofErr => 1 + chunkRetryCalls res (i + 1) t
    | .otherErr _ => 1
    | .okDone => 1

/-- Number of `CopyChunk` calls made by one chunk goroutine of `syncOne`. -/
def runChunkCalls (res : Nat → AttemptResult) : Nat :=
  chunkRetryCalls res 0 3

/-! ## Missing-record count and the top of `syncOne` (sync.go lines 85-96)

`missing := uint64(sodataCount) - tmd.NumRows` in Go `uint64` arithmetic,
followed by `if sodataCount == 0 { return }` and then
`if missing == 0 { ...; return }` before any chunk is scheduled. -/

/-- `uint64(sodataCount) - tmd.NumRows` (sync.go line 85): subtraction in
`uint64`, wrapping modulo `2^64`. -/
def missingRecords (sodataCount numRows : Nat) : Nat :=
  (sodataCount % U64 + (U64 - numRows % U64)) % U64

/-- How the early part of `syncOne` resolves: return because the source count
is zero, return because `missing == 0`, or proceed to schedule chunk copies
over `missing` records. -/
inductive SyncDecision where
  | noSourceRows
  | inSync
  | scheduleChunks (missing : Nat)
deriving DecidableEq

/-- The control flow of `syncOne` between computing `missing` and entering the
chunk loop (sync.go 85-96): the `sodataCount == 0` check runs before the
`missing == 0` check. -/
def syncDecision (sodataCount numRows : Nat) : SyncDecision :=
  let missing := missingRecords sodataCount numRows
  if sodataCount = 0 then .noSourceRows
  else if missing = 0 then .inSync
  else .scheduleChunks missing

/-! ## Chunk windows (`syncOne`, sync.go lines 141-163)

`for n := uint64(0); n < missing; n += pageSize` spawns one task per window;
inside the task `remain := pageSize; if n+remain > missing { remain = missing
- n }`.  All arithmetic is `uint64`, so both `n + remain` and the loop
increment wrap modulo `2^64`.  The loop itself need not terminate (when the
increment wraps), so the embedding generates the window list with explicit
fuel; `chunkWindows` supplies enough fuel for every terminating run. -/

/-- The `remain` computed inside one chunk task (sync.go 145-148), with the
`uint64` wrap of `n + pageSize` made explicit. -/
def chunkLimit (missing pageSize n : Nat) : Nat :=
  if (n + pageSize) % U64 > missing then missing - n else pageSize

/-- The `(offset, remain)` windows generated by the chunk loop of `syncOne`,
starting from offset `n`, producing at most `fuel` windows. -/
def chunkWindowsAux (missing pageSize : Nat) : Nat → Nat → List (Nat × Nat)
  | 0, _ => []
  | fuel + 1, n =>
    if n < missing then
      (n, chunkLimit missing pageSize n) ::
        chunkWindowsAux missing pageSize fuel ((n + pageSize) % U64)
    else []

/-- The full window list of the chunk loop.  Fuel `missing + 1` is enough for
every run in which the loop terminates (each iteration strictly increases `n`
while `n < missing` whenever no wrap occurs). -/
def chunkWindows (missing pageSize : Nat) : List (Nat × Nat) :=
  chunkWindowsAux missing pageSize (missing + 1) 0

/-- Record index `k` falls inside window `w = (offset, limit)`. -/
def inWindow (w : Nat × Nat) (k : Nat) : Prop :=
  w.1 ≤ k ∧ k < w.1 + w.2

/-- The spec's chunking-completeness property: every index of
`[0, missingCount)` is covered by exactly one generated window. -/
def windowsExactCover (missing pageSize : Nat) : Prop :=
  ∀ k, k < missing → ∃! w, w ∈ chunkWindows missing pageSize ∧ inWindow w k

/-! ## Resume cursor / watermark filter (`syncOne`, sync.go lines 98-132)

`where := cf.BigQuery.WhereFilter`; if the table has rows, the max
`_created_at` is queried and, when non-zero, the filter
`:created_at >= '<max + 1s in RFC3339>'` is conjoined with `" and "` (or used
alone when the user filter is empty).  Timestamps are embedded as whole
seconds (`Nat`), with `0` standing for Go's zero `time.Time` (the
`r.Created.IsZero()` branch, which is also what a NULL `max(_created_at)`
leaves behind). -/

/-- The final where clause of `syncOne`, by shape: the user filter alone, the
derived `:created_at >= ...` filter alone, or both conjoined with `" and "`.
`threshold` is the whole-second timestamp rendered into the derived filter. -/
inductive WhereClause where
  | userOnly (w : String)
  | derivedOnly (threshold : Nat)
  | conjoined (w : String) (threshold : Nat)
deriving DecidableEq

/-- The where-clause computation of `syncOne` (sync.go 98-132): `maxCreated`
is the warehouse's `max(_created_at)` in seconds, `0` when the table answered
NULL / zero time.  The derived threshold is `maxCreated + 1` second, from
`r.Created.Add(time.Second)`. -/
def syncWhere (userWhere : String) (numRows maxCreated : Nat) : WhereClause :=
  if 0 < numRows ∧ maxCreated ≠ 0 then
    if userWhere = "" then .derivedOnly (maxCreated + 1)
    else .conjoined userWhere (maxCreated + 1)
  else .userOnly userWhere

/-- The derived filter string of sync.go line 124 with the RFC-3339 rendering
of the timestamp abstracted to its whole-second value. -/
def createdAtFilter (threshold : Nat) : String :=
  ":created_at >= " ++ "'" ++ toString threshold ++ "'"

/-- The string composition of sync.go lines 126-130. -/
def composeWhere (userWhere createdFilter : String) : String :=
  if userWhere = "" then createdFilter else userWhere ++ " and " ++ createdFilter

/-- Render a `WhereClause` back to the string `syncOne` actually builds. -/
def renderWhere : WhereClause → String
  | .userOnly w => w
  | .derivedOnly th => createdAtFilter th
  | .conjoined w th => w ++ " and " ++ createdAtFilter th

/-- Modelled from the spec: evaluation of the derived
`:created_at >= '<timestamp>'` predicate by the upstream (Socrata) query
engine, which is an external collaborator whose code is not part of this
repository.  Per spec §6 the upstream evaluates a `where`-style filter
expression; a record ingested at whole second `s` satisfies the comparison
exactly when `threshold ≤ s`. -/
def createdFilterSelects (threshold s : Nat) : Bool :=
  threshold ≤ s

/-- Modelled from the spec: which records the composed where clause selects,
given the (opaque) user filter's semantics `U` and a record's ingestion
second `s`.  Conjunction with `" and "` is SoQL conjunction. -/
def clauseSelects (U : Nat → Bool) : WhereClause → Nat → Bool
  | .userOnly w, s => if w = "" then true else U s
  | .derivedOnly th, s => createdFilterSelects th s
  | .conjoined _ th, s => U s && createdFilterSelects th s

/-! ## ConcurrentLimit (concurrent_limit.go)

`ConcurrentLimit` holds `c chan bool` of capacity `n`; `Run(f)` sends on the
channel (blocking while `n` sends are outstanding), runs `f()`, then
receives.  The embedding is a step relation over the phases of a fixed
population of tasks: a task holds a slot exactly while it is `running`, and
channel occupancy equals the number of running tasks, so a send (acquire) is
enabled only while fewer than `n` tasks are running. -/

/-- The lifecycle of one `Run(f)` call: blocked on `c.c <- true`, executing
`f()` while holding a slot, or finished (after `<-c.c`). -/
inductive TaskPhase where
  | waiting
  | running
  | finished
deriving DecidableEq

/-- Number of tasks currently holding a slot. -/
def runningCount : List TaskPhase → Nat
  | [] => 0
  | .running :: t => runningCount t + 1
  | .waiting :: t => runningCount t
  | .finished :: t => runningCount t

/-- One scheduler step of `NewConcurrentLimit(n)`'s semaphore: a waiting task
acquires a slot (the buffered-channel send succeeds only while fewer than `n`
slots are taken), or a running task finishes and releases its slot. -/
inductive LimitStep (n : Nat) : List TaskPhase → List TaskPhase → Prop
  | acquire (l : List TaskPhase) (i : Nat)
      (h : l[i]? = some .waiting) (hn : runningCount l < n) :
      LimitStep n l (l.set i .running)
  | release (l : List TaskPhase) (i : Nat)
      (h : l[i]? = some .running) :
      LimitStep n l (l.set i .finished)

/-- States reachable by interleaving `Run` calls of `k` tasks against a
`ConcurrentLimit` of capacity `n`, starting with every task blocked at the
channel send. -/
def LimitReachable (n k : Nat) (l : List TaskPhase) : Prop :=
  Relation.ReflTransGen (LimitStep n) (List.replicate k .waiting) l

/-! ## Dynamic record values (Go `interface{}` after JSON decoding)

Following spec §9, the dynamic values are a closed tagged type.  `num m e`
is the decimal `m / 10^e` — the embedding of a JSON number decoded by
`encoding/json` (Go holds a `float64`; the embedding keeps the decimal the
parser read, which agrees with Go's value-faithful decode/encode round-trip
on the decimal forms exercised here).  `jsonNum` is Go's `json.Number`
(a raw numeric string, produced by the `dec.UseNumber()` decoder of
`TransformDownload`).  Objects are association lists in strictly ascending
key order, the canonical form of a Go map (and the order `json.Marshal`
emits). -/
inductive Value where
  | null
  | bool (b : Bool)
  | num (m : Int) (e : Nat)
  | str (s : String)
  | jsonNum (s : String)
  | arr (elems : List Value)
  | obj (fields : List (String × Value))

/-- Go `v == nil` on an `interface{}` holding a decoded JSON value. -/
def Value.isNull : Value → Bool
  | .null => true
  | _ => false

/-- Go `sv, ok := v.(string); ok && sv == ""`. -/
def Value.isEmptyStr : Value → Bool
  | .str s => s = ""
  | _ => false

/-- Errors produced by the transform pipeline, tagged by their Go
constructor site. -/
inductive GoErr where
  | missingRequiredField (field : String)
  | unhandledConversion (src tgt field : String)
  | unhandledType (tgt field : String)
  | unhandledTypeList (tgt field : String)
  | parseFloatErr (input : String)
  | timeParseErr (layout value : String)
  | intParseErr (input : String)
deriving DecidableEq

/-- Go `fmt.Sprintf("%q", s)` on the plain strings appearing here. -/
def quoteStr (s : String) : String := "\"" ++ s ++ "\""

/-- The error strings of the corresponding `fmt.Errorf` calls. -/
def GoErr.message : GoErr → String
  | .missingRequiredField f => "missing required field " ++ quoteStr f
  | .unhandledConversion src tgt f =>
      "unhandled conversion from " ++ quoteStr src ++ " to " ++ quoteStr tgt ++
        " for field " ++ f
  | .unhandledType tgt f =>
      "unhandled BigQuery type " ++ quoteStr tgt ++ " for field " ++ quoteStr f
  | .unhandledTypeList tgt f =>
      "unhandled BigQuery type " ++ quoteStr tgt ++ " for field " ++ quoteStr f
  | .parseFloatErr s => "strconv.ParseFloat: parsing " ++ quoteStr s ++ ": invalid syntax"
  | .timeParseErr layout value => "parsing time " ++ quoteStr value ++ " as " ++ quoteStr layout
  | .intParseErr s => "strconv.ParseInt: parsing " ++ quoteStr s ++ ": invalid syntax"

/-! ## Schema (schema.go) -/

/-- `bigquery.FieldType` constants used by the transform switch. -/
def NumericFieldType : String := "NUMERIC"

/-- `bigquery.StringFieldType`. -/
def StringFieldType : String := "STRING"

/-- `bigquery.GeographyFieldType`. -/
def GeographyFieldType : String := "GEOGRAPHY"

/-- `bigquery.DateFieldType`. -/
def DateFieldType : String := "DATE"

/-- `bigquery.TimeFieldType`. -/
def TimeFieldType : String := "TIME"

/-- `bigquery.TimestampFieldType`. -/
def TimestampFieldType : String := "TIMESTAMP"

/-- `bigquery.FloatFieldType`. -/
def FloatFieldType : String := "FLOAT"

/-- `bigquery.DateTimeFieldType`. -/
def DateTimeFieldType : String := "DATETIME"

/-- `bigquery.BooleanFieldType`. -/
def BooleanFieldType : String := "BOOLEAN"

/-- `OnError` constant `SkipValue` (schema.go line 16). -/
def SkipValue : String := "SKIP_VALUE"

/-- `OnError` constant `SkipRow` (schema.go line 17). -/
def SkipRow : String := "SKIP_ROW"

/-- `OnError` constant `RaiseError` (schema.go line 18). -/
def RaiseError : String := "ERROR"

/-- `SchemaField` (schema.go lines 22-31); the non-functional
`Description`/`ExampleValues` fields are omitted.  `fieldType` is the Go
field `Type` (a `bigquery.FieldType` string). -/
structure SchemaField where
  sourceField : String
  sourceFieldType : String
  fieldType : String
  timeFormat : String
  required : Bool
  onError : String

/-- A Go `map[string]interface{}` record as an association list.  Output
records are built in schema-iteration order (Go iterates `TableSchema` in
unspecified map order; the embedding fixes the list order, and the claims
below use order-insensitive statements or single-field schemata). -/
abbrev Record := List (String × Value)

/-- Go map read `m[k]`: a missing key yields the nil interface. -/
def recGet (m : Record) (k : String) : Value :=
  match m.find? (fun kv => kv.1 == k) with
  | some kv => kv.2
  | none => .null

/-- Go map write `m[k] = v`. -/
def recSet (m : Record) (k : String) (v : Value) : Record :=
  match m with
  | [] => [(k, v)]
  | (k', v') :: t => if k' = k then (k, v) :: t else (k', v') :: recSet t k v

/-! ## Go `time.Parse` (restricted to the layout directives this repo uses)

`time.Parse` is embedded for the directives reachable from the transform
code after `ToTime`'s lowering: the numeric directives `2006`, `01`, `02`,
`03`, `04`, `05`, `15` and the lower-case meridiem `pm`; every other
directive start (`1`, `2`, `3`, `4`, `5`, `06`) lexes as `unsupported` and
fails the parse, and remaining characters are literals (Go's upper-case
word directives such as `Jan`/`Mon` cannot survive `strings.ToLower`). -/
inductive LChunk where
  | lit (c : Char)
  | year4
  | month2
  | day2
  | hour24
  | hour12z
  | min2
  | sec2
  | meridiem
  | unsupported
deriving DecidableEq

/-- Layout scanner (Go `nextStdChunk`, restricted as described above). -/
def lexLayout : List Char → List LChunk
  | [] => []
  | '2' :: '0' :: '0' :: '6' :: rest => .year4 :: lexLayout rest
  | '1' :: '5' :: rest => .hour24 :: lexLayout rest
  | '0' :: '1' :: rest => .month2 :: lexLayout rest
  | '0' :: '2' :: rest => .day2 :: lexLayout rest
  | '0' :: '3' :: rest => .hour12z :: lexLayout rest
  | '0' :: '4' :: rest => .min2 :: lexLayout rest
  | '0' :: '5' :: rest => .sec2 :: lexLayout rest
  | '0' :: '6' :: rest => .unsupported :: lexLayout rest
  | 'p' :: 'm' :: rest => .meridiem :: lexLayout rest
  | c :: rest =>
    if c = '1' ∨ c = '2' ∨ c = '3' ∨ c = '4' ∨ c = '5' then
      .unsupported :: lexLayout rest
    else .lit c :: lexLayout rest

/-- The clock/date fields `time.Parse` accumulates (defaults: January 1,
year 0, 00:00:00). -/
structure GoTM where
  hour : Nat
  minutes : Nat
  sec : Nat
  pmSet : Bool
  amSet : Bool
  year : Nat
  month : Nat
  day : Nat
deriving DecidableEq

/-- The defaults of `time.Parse`. -/
def initTM : GoTM := ⟨0, 0, 0, false, false, 0, 1, 1⟩

/-- Numeric value of an ASCII digit. -/
def digitVal (c : Char) : Nat := c.toNat - 48

/-- Go `getnum`: one or two digits, exactly two when `fixed`. -/
def getnum (fixed : Bool) : List Char → Option (Nat × List Char)
  | [] => none
  | [c] => if c.isDigit && !fixed then some (digitVal c, []) else none
  | c1 :: c2 :: rest =>
    if c1.isDigit then
      if c2.isDigit then some (digitVal c1 * 10 + digitVal c2, rest)
      else if fixed then none else some (digitVal c1, c2 :: rest)
    else none

/-- Go `getnum4`-style fixed four-digit read (for `2006`). -/
def getnum4 : List Char → Option (Nat × List Char)
  | a :: b :: c :: d :: rest =>
    if a.isDigit && b.isDigit && c.isDigit && d.isDigit then
      some (((digitVal a * 10 + digitVal b) * 10 + digitVal c) * 10 + digitVal d, rest)
    else none
  | _ => none

/-- The chunk-matching loop of `time.Parse`, with Go's per-directive range
checks; leftover input is an error (Go's `ErrExtra`). -/
def parseChunks : List LChunk → List Char → GoTM → Option GoTM
  | [], [], t => some t
  | [], _ :: _, _ => none
  | ch :: cs, v, t =>
    match ch with
    | .lit c =>
      match v with
      | c' :: v' => if c' = c then parseChunks cs v' t else none
      | [] => none
    | .year4 =>
      match getnum4 v with
      | some (y, v') => parseChunks cs v' { t with year := y }
      | none => none
    | .month2 =>
      match getnum true v with
      | some (mo, v') => if mo = 0 ∨ 12 < mo then none else parseChunks cs v' { t with month := mo }
      | none => none
    | .day2 =>
      match getnum true v with
      | some (d, v') => if d = 0 ∨ 31 < d then none else parseChunks cs v' { t with day := d }
      | none => none
    | .hour24 =>
      match getnum false v with
      | some (h, v') => if 24 ≤ h then none else parseChunks cs v' { t with hour := h }
      | none => none
    | .hour12z =>
      match getnum true v with
      | some (h, v') => if 12 < h then none else parseChunks cs v' { t with hour := h }
      | none => none
    | .min2 =>
      match getnum true v with
      | some (mi, v') => if 60 ≤ mi then none else parseChunks cs v' { t with minutes := mi }
      | none => none
    | .sec2 =>
      match getnum true v with
      | some (sc, v') => if 60 ≤ sc then none else parseChunks cs v' { t with sec := sc }
      | none => none
    | .meridiem =>
      match v with
      | 'p' :: 'm' :: v' => parseChunks cs v' { t with pmSet := true }
      | 'a' :: 'm' :: v' => parseChunks cs v' { t with amSet := true }
      | _ => none
    | .unsupported => none

/-- The post-loop meridiem adjustment of `time.Parse`. -/
def applyMeridiem (t : GoTM) : GoTM :=
  if t.pmSet ∧ t.hour < 12 then { t with hour := t.hour + 12 }
  else if t.amSet ∧ t.hour = 12 then { t with hour := 0 }
  else t

/-- Go `time.Parse(layout, value)` restricted as described at `lexLayout`. -/
def goTimeParse (layout value : String) : Option GoTM :=
  (parseChunks (lexLayout layout.toList) value.toList initTM).map applyMeridiem

/-- Two-digit zero-padded rendering (Go layout `15`/`04`/`05`/`01`/`02`). -/
def pad2 (n : Nat) : String := if n < 10 then "0" ++ toString n else toString n

/-- Four-digit zero-padded rendering (Go layout `2006`). -/
def pad4 (n : Nat) : String :=
  if n < 10 then "000" ++ toString n
  else if n < 100 then "00" ++ toString n
  else if n < 1000 then "0" ++ toString n
  else toString n

/-- Go `t.Format("15:04:05")`. -/
def formatHMS (t : GoTM) : String :=
  pad2 t.hour ++ ":" ++ pad2 t.minutes ++ ":" ++ pad2 t.sec

/-- Go `t.Format("2006-01-02")`. -/
def formatYMD (t : GoTM) : String :=
  pad4 t.year ++ "-" ++ pad2 t.month ++ "-" ++ pad2 t.day

/-! ## Value coercion library (transform.go lines 258-297 and helpers) -/

/-- Go `strings.ToLower` (the formats and values reaching it here are
ASCII). -/
def toLowerStr (s : String) : String := String.mk (s.toList.map Char.toLower)

/-- Go `strings.HasSuffix`. -/
def strEndsWith (s suffix : String) : Bool := suffix.toList.isSuffixOf s.toList

/-- `ToDate` (transform.go 268-277): empty string is null with no error;
otherwise parse with the descriptor's pattern and re-emit `2006-01-02`. -/
def ToDate (format s : String) : Except GoErr Value :=
  if s = "" then .ok .null
  else
    match goTimeParse format s with
    | some t => .ok (.str (formatYMD t))
    | none => .error (.timeParseErr format s)

/-- `ToTime` (transform.go 279-297): empty string is null with no error;
otherwise lower both format and value, widen a format ending in a bare `p`
by appending `m` to both, parse, and re-emit `15:04:05`. -/
def ToTime (format s : String) : Except GoErr Value :=
  if s = "" then .ok .null
  else
    let f := toLowerStr format
    let v := toLowerStr s
    let f' := if strEndsWith f "p" then f ++ "m" else f
    let v' := if strEndsWith f "p" then v ++ "m" else v
    match goTimeParse f' v' with
    | some t => .ok (.str (formatHMS t))
    | none => .error (.timeParseErr f' v')

/-- Go `strings.ReplaceAll(s, ",", "")`. -/
def stripCommas (s : String) : String := String.mk (s.toList.filter (fun c => c ≠ ','))

/-- Digit-list read-back, most significant first. -/
def foldDigitsNat (ds : List Char) : Nat := ds.foldl (fun a c => a * 10 + digitVal c) 0

/-- Go `strconv.ParseFloat(s, 64)` restricted to plain decimal forms
`[+-]digits[.digits]` (exponent, hex-float, inf and nan spellings are not
modelled; they do not occur in the numeric text columns this pipeline
parses).  The value is returned as an exact decimal `(mantissa, scale)`;
`none` is Go's syntax error, in which case `ParseFloat` returns value 0. -/
def goParseFloat (s : String) : Option (Int × Nat) :=
  let step1 : Bool × List Char :=
    match s.toList with
    | '-' :: r => (true, r)
    | '+' :: r => (false, r)
    | r => (false, r)
  let neg := step1.1
  let intFrac := step1.2.span Char.isDigit
  let toInt (ds : List Char) : Int :=
    if neg then -(foldDigitsNat ds : Int) else (foldDigitsNat ds : Int)
  match intFrac.2 with
  | [] => if intFrac.1 = [] then none else some (toInt intFrac.1, 0)
  | '.' :: r =>
    let frac := r.span Char.isDigit
    if frac.2 = [] ∧ (intFrac.1 ≠ [] ∨ frac.1 ≠ []) then
      some (toInt (intFrac.1 ++ frac.1), frac.1.length)
    else none
  | _ => none

/-! ## JSON serialization (Go `encoding/json.Marshal` over decoded values)

`json.Marshal` with default options: HTML-escaping on, map keys emitted in
sorted order (which is how `Value.obj` association lists are kept), no
surrounding whitespace. -/

/-- Lower-case hex digit. -/
def hexDigitL (n : Nat) : Char := if n < 10 then Char.ofNat (48 + n) else Char.ofNat (87 + n)

/-- Go `encoding/json` string escaping (with the default HTML escaping that
plain `json.Marshal` applies). -/
def escapeChar (c : Char) : List Char :=
  if c = '"' then ['\\', '"']
  else if c = '\\' then ['\\', '\\']
  else if c = '\n' then ['\\', 'n']
  else if c = '\r' then ['\\', 'r']
  else if c = '\t' then ['\\', 't']
  else if c.toNat < 32 ∨ c = '<' ∨ c = '>' ∨ c = '&' then
    ['\\', 'u', '0', '0', hexDigitL (c.toNat / 16), hexDigitL (c.toNat % 16)]
  else if c.toNat = 8232 ∨ c.toNat = 8233 then
    ['\\', 'u', '2', '0', '2', hexDigitL (c.toNat % 16)]
  else [c]

/-- Digit accumulator: with fuel larger than the number of digits, prepends
the decimal digits of `n` (most significant first) to `acc`. -/
def natDigitsAux : Nat → Nat → List Char → List Char
  | 0, _, acc => acc
  | fuel + 1, n, acc =>
    if n < 10 then Char.ofNat (48 + n) :: acc
    else natDigitsAux fuel (n / 10) (Char.ofNat (48 + n % 10) :: acc)

/-- Decimal digits of a natural number, most significant first. -/
def natDigits (n : Nat) : List Char := natDigitsAux (n + 1) n []

/-- Serialization of the non-negative decimal `n / 10^e`: the digits of
`n`, left-padded with zeros to at least `e + 1` digits, with a decimal
point inserted `e` places from the right when `e > 0`. -/
def serializeNumCore (n e : Nat) : List Char :=
  let ds := List.replicate (e + 1 - (natDigits n).length) '0' ++ natDigits n
  if e = 0 then ds else ds.take (ds.length - e) ++ '.' :: ds.drop (ds.length - e)

/-- Serialization of the decimal `m / 10^e`. -/
def serializeNum (m : Int) (e : Nat) : List Char :=
  if m < 0 then '-' :: serializeNumCore m.natAbs e else serializeNumCore m.natAbs e

/-- A JSON string literal with Go's escaping. -/
def serializeString (s : String) : List Char :=
  '"' :: (s.toList.map escapeChar).flatten ++ ['"']

mutual

/-- `json.Marshal` of one decoded value, as characters. -/
def serializeVal : Value → List Char
  | .num m e => serializeNum m e
  | .str s => serializeString s
  | .jsonNum s => s.toList
  | .arr xs => '[' :: serializeArr xs ++ [']']
  | .obj kvs => '{' :: serializeObj kvs ++ ['}']
  | .null => ['n', 'u', 'l', 'l']
  | .bool false => ['f', 'a', 'l', 's', 'e']
  | .bool true => ['t', 'r', 'u', 'e']

/-- Comma-separated array elements. -/
def serializeArr : List Value → List Char
  | [] => []
  | [x] => serializeVal x
  | x :: y :: t => serializeVal x ++ ',' :: serializeArr (y :: t)

/-- Comma-separated `"key":value` members. -/
def serializeObj : List (String × Value) → List Char
  | [] => []
  | [(k, v)] => serializeString k ++ ':' :: serializeVal v
  | (k, v) :: x :: t => serializeString k ++ ':' :: serializeVal v ++ ',' :: serializeObj (x :: t)

end

/-- Go `string(json.Marshal(v))`. -/
def jsonMarshal (v : Value) : String := String.mk (serializeVal v)

/-- `ToGeoJSON` (transform.go 258-266): nil yields null with no error;
anything else is re-serialized to a JSON string verbatim, with no
re-validation (`json.Marshal` cannot fail on a decoded value). -/
def ToGeoJSON (v : Value) : Value × Option GoErr :=
  match v with
  | .null => (.null, none)
  | _ => (.str (jsonMarshal v), none)

/-- Modelled from the spec: `ToGeoJSONPoint` is called by `TransformOneList`
and exercised by `transform_test.go`, but its body is not among the source
files.  Spec §4.1: for sourceType = point the source geometry object is
serialized to a GeoJSON string verbatim (the WKT-string test input is left
as the spec's open question and not modelled). -/
def ToGeoJSONPoint (v : Value) : Value × Option GoErr := ToGeoJSON v

/-- Modelled from the spec: `ToGeoJSONLocation` is called by
`TransformOneList` but its body is not among the source files.  Spec §4.1:
accept `[addressBlob, latString, lonString, ...]` or
`{latitude, longitude, ...}`; emit a GeoJSON Point string with
`[longitude, latitude]` ordering; yield null (not an error) when the
latitude/longitude cannot be read as strings. -/
def ToGeoJSONLocation (v : Value) : Value × Option GoErr :=
  match v with
  | .arr (_ :: .str lat :: .str lon :: _) =>
    (.str (jsonMarshal (.obj [("coordinates", .arr [.jsonNum lon, .jsonNum lat]),
                              ("type", .str "Point")])), none)
  | .obj kvs =>
    match recGet kvs "latitude", recGet kvs "longitude" with
    | .str lat, .str lon =>
      (.str (jsonMarshal (.obj [("coordinates", .arr [.jsonNum lon, .jsonNum lat]),
                                ("type", .str "Point")])), none)
    | _, _ => (.null, none)
  | _ => (.null, none)

/-! ## Epoch timestamps (list variant, transform_download.go 386-397) -/

/-- Civil date from days since the Unix epoch (proleptic Gregorian). -/
def daysToCivil (z0 : Int) : Int × Int × Int :=
  let z := z0 + 719468
  let era := z.fdiv 146097
  let doe := z - era * 146097
  let yoe := (doe - doe / 1460 + doe / 36524 - doe / 146096) / 365
  let y := yoe + era * 400
  let doy := doe - (365 * yoe + yoe / 4 - yoe / 100)
  let mp := (5 * doy + 2) / 153
  let d := doy - (153 * mp + 2) / 5 + 1
  let m := mp + (if mp < 10 then 3 else -9)
  (y + (if m ≤ 2 then 1 else 0), m, d)

/-- Go `time.Unix(c, 0).Format(time.RFC3339)` with the process timezone
taken as UTC. -/
def formatUnixRFC3339 (c : Int) : String :=
  let days := c.fdiv 86400
  let secs := (c - days * 86400).toNat
  let ymd := daysToCivil days
  pad4 ymd.1.toNat ++ "-" ++ pad2 ymd.2.1.toNat ++ "-" ++ pad2 ymd.2.2.toNat ++ "T" ++
    pad2 (secs / 3600) ++ ":" ++ pad2 (secs % 3600 / 60) ++ ":" ++ pad2 (secs % 60) ++ "Z"

/-- Go `json.Number.Int64()` (`strconv.ParseInt` on the raw string). -/
def jsonNumberInt64 (s : String) : Except GoErr Int :=
  let step1 : Bool × List Char :=
    match s.toList with
    | '-' :: r => (true, r)
    | '+' :: r => (false, r)
    | r => (false, r)
  let ds := step1.2
  if ds ≠ [] ∧ ds.all Char.isDigit then
    let n : Int := if step1.1 then -(foldDigitsNat ds : Int) else (foldDigitsNat ds : Int)
    if -(2 ^ 63) ≤ n ∧ n < 2 ^ 63 then .ok n else .error (.intParseErr s)
  else .error (.intParseErr s)

/-- `truncateWithPrecision` (transform_download.go 308-319). -/
def truncateWithPrecision (s : String) (p : Nat) : String :=
  match s.toList.findIdx? (fun c => c = '.') with
  | some dotIndex =>
    let precision := s.length - dotIndex - 1
    if precision > p then String.mk (s.toList.take (s.length - (precision - p))) else s
  | none => s

/-! ## Record transform pipeline (transform.go 182-256,
transform_download.go 321-417)

Per-field processing is split into a "step" (the body of the type switch
for one field) and the shared `onError` policy dispatch that follows it.  A
step can end in a Go runtime panic (a failed single-valued type assertion),
an early `return nil, err` that bypasses the policy switch (the
unhandled-conversion and unhandled-type branches), or fall through with an
optional map write and an optional error for the policy switch. -/

/-- Outcome of the per-field switch body for one field. -/
inductive StepRes where
  | panicked
  | earlyErr (e : GoErr)
  | next (assign : Option Value) (err : Option GoErr)

/-- The `bigquery.DateFieldType` case (identical in both variants):
transform.go 219-229 / transform_download.go 369-379. -/
def dateFieldStep (fieldName : String) (schema : SchemaField) (sourceValue : Value) : StepRes :=
  match sourceValue with
  | .null =>
    .next none (if schema.required then some (.missingRequiredField fieldName) else none)
  | .str s =>
    match ToDate schema.timeFormat s with
    | .ok v =>
      .next (some v)
        (if schema.required && v.isNull then some (.missingRequiredField fieldName) else none)
    | .error e => .next (some .null) (some e)
  | _ => .panicked

/-- The `bigquery.TimeFieldType` case (identical in both variants):
transform.go 230-235 / transform_download.go 380-385. -/
def timeFieldStep (fieldName : String) (schema : SchemaField) (sourceValue : Value) : StepRes :=
  match sourceValue with
  | .null =>
    .next none (if schema.required then some (.missingRequiredField fieldName) else none)
  | .str s =>
    match ToTime schema.timeFormat s with
    | .ok v => .next (some v) none
    | .error e => .next (some .null) (some e)
  | _ => .panicked

/-- One field of the keyed variant `TransformOne` (transform.go 182-241):
the type switch on `schema.Type` with its nested switches. -/
def fieldStepKeyed (fieldName : String) (schema : SchemaField) (sourceValue : Value) : StepRes :=
  if schema.fieldType = NumericFieldType then
    if schema.sourceFieldType = "text" then
      match sourceValue with
      | .null => .next none none
      | .str s =>
        match goParseFloat (stripCommas s) with
        | some me => .next (some (.num me.1 me.2)) none
        | none => .next (some (.num 0 0)) (some (.parseFloatErr (stripCommas s)))
      | _ => .panicked
    else .next (some sourceValue) none
  else if schema.fieldType = StringFieldType then
    if schema.sourceFieldType = "url" then
      match sourceValue with
      | .obj kvs => .next (some (recGet kvs "url")) none
      | _ => .panicked
    else if schema.sourceFieldType = "text" ∨ schema.sourceFieldType = "" then
      .next (some sourceValue)
        (if schema.required && (sourceValue.isEmptyStr || sourceValue.isNull) then
           some (.missingRequiredField fieldName)
         else none)
    else .earlyErr (.unhandledConversion schema.sourceFieldType schema.fieldType fieldName)
  else if schema.fieldType = GeographyFieldType then
    if schema.sourceFieldType = "point" then
      .next (some (ToGeoJSON sourceValue).1) (ToGeoJSON sourceValue).2
    else .earlyErr (.unhandledConversion schema.sourceFieldType schema.fieldType fieldName)
  else if schema.fieldType = DateFieldType then
    dateFieldStep fieldName schema sourceValue
  else if schema.fieldType = TimeFieldType then
    timeFieldStep fieldName schema sourceValue
  else if schema.fieldType = TimestampFieldType then
    .next (some sourceValue) none
  else .earlyErr (.unhandledType schema.fieldType fieldName)

/-- One field of the positional variant `TransformOneList`
(transform_download.go 321-401). -/
def fieldStepList (fieldName : String) (schema : SchemaField) (sourceValue : Value) : StepRes :=
  if schema.fieldType = NumericFieldType ∨ schema.fieldType = FloatFieldType then
    if schema.sourceFieldType = "number" then
      match sourceValue with
      | .str s =>
        if s = "" then .next none none
        else .next (some (.jsonNum (truncateWithPrecision s 9))) none
      | _ => .next none none
    else .next (some sourceValue) none
  else if schema.fieldType = StringFieldType then
    if schema.sourceFieldType = "url" then
      match sourceValue with
      | .arr (x :: _) => .next (some x) none
      | _ => .panicked
    else if schema.sourceFieldType = "text" ∨ schema.sourceFieldType = "" then
      .next (if sourceValue.isNull then none else some sourceValue)
        (if schema.required && (sourceValue.isEmptyStr || sourceValue.isNull) then
           some (.missingRequiredField fieldName)
         else none)
    else .earlyErr (.unhandledConversion schema.sourceFieldType schema.fieldType fieldName)
  else if schema.fieldType = GeographyFieldType then
    if schema.sourceFieldType = "point" then
      .next (some (ToGeoJSONPoint sourceValue).1) (ToGeoJSONPoint sourceValue).2
    else if schema.sourceFieldType = "location" then
      .next (some (ToGeoJSONLocation sourceValue).1) (ToGeoJSONLocation sourceValue).2
    else .earlyErr (.unhandledConversion schema.sourceFieldType schema.fieldType fieldName)
  else if schema.fieldType = DateFieldType then
    dateFieldStep fieldName schema sourceValue
  else if schema.fieldType = TimeFieldType then
    timeFieldStep fieldName schema sourceValue
  else if schema.fieldType = TimestampFieldType ∨ schema.fieldType = DateTimeFieldType then
    if schema.sourceFieldType = "json.Number" then
      match sourceValue with
      | .jsonNum s =>
        match jsonNumberInt64 s with
        | .ok c => .next (some (.str (formatUnixRFC3339 c))) none
        | .error e => .next none (some e)
      | _ => .panicked
    else .next (some sourceValue) none
  else if schema.fieldType = BooleanFieldType then
    match sourceValue with
    | .bool b => .next (some (.bool b)) none
    | _ => .panicked
  else .earlyErr (.unhandledTypeList schema.fieldType fieldName)

/-- Result of transforming one record: a Go runtime panic, `(nil, err)`,
the skipped-row `(nil, nil)`, or `(out, nil)`. -/
inductive TransformResult where
  | panicked
  | failed (e : GoErr)
  | skippedRow
  | kept (rec : Record)

/-- The `switch schema.OnError` dispatch shared by both variants
(transform.go 242-253 / transform_download.go 403-414): `SKIP_VALUE` nulls
the field and continues, `SKIP_ROW` or the unset policy drops the row,
`ERROR` propagates, and any other string falls out of the switch — the
error is discarded and processing continues. -/
def applyOnError (onError : String) (out : Record) (fieldName : String) (e : GoErr)
    (cont : Record → TransformResult) : TransformResult :=
  if onError = SkipValue then cont (recSet out fieldName .null)
  else if onError = SkipRow ∨ onError = "" then .skippedRow
  else if onError = RaiseError then .failed e
  else cont out

/-- The field loop of `TransformOne` (transform.go 184-254).  `sourceValue`
is `m[schema.SourceField]`. -/
def transformFieldsKeyed (m : Record) : List (String × SchemaField) → Record → TransformResult
  | [], out => .kept out
  | (fieldName, schema) :: rest, out =>
    match fieldStepKeyed fieldName schema (recGet m schema.sourceField) with
    | .panicked => .panicked
    | .earlyErr e => .failed e
    | .next assign err =>
      let out' := match assign with
        | some v => recSet out fieldName v
        | none => out
      match err with
      | none => transformFieldsKeyed m rest out'
      | some e => applyOnError schema.onError out' fieldName e (transformFieldsKeyed m rest)

/-- `TransformOne` (transform.go 182-256), with the schema map as a list in
iteration order. -/
def TransformOne (m : Record) (s : List (String × SchemaField)) : TransformResult :=
  transformFieldsKeyed m s []

/-- The field loop of `TransformOneList` (transform_download.go 324-415):
`sourceValue` is `l[i]`, `schema := s[i]` (an out-of-range index is a Go
panic), and an empty `FieldName` skips the column. -/
def transformFieldsList (s : List (String × SchemaField)) :
    List Value → Nat → Record → TransformResult
  | [], _, out => .kept out
  | v :: vs, i, out =>
    match s.get? i with
    | none => .panicked
    | some (fieldName, schema) =>
      if fieldName = "" then transformFieldsList s vs (i + 1) out
      else
        match fieldStepList fieldName schema v with
        | .panicked => .panicked
        | .earlyErr e => .failed e
        | .next assign err =>
          let out' := match assign with
            | some v' => recSet out fieldName v'
            | none => out
          match err with
          | none => transformFieldsList s vs (i + 1) out'
          | some e => applyOnError schema.onError out' fieldName e
              (fun o => transformFieldsList s vs (i + 1) o)

/-- `TransformOneList` (transform_download.go 321-417), over the
`OrderedTableSchema` as a positional list of `(FieldName, SchemaField)`. -/
def TransformOneList (l : List Value) (s : List (String × SchemaField)) : TransformResult :=
  transformFieldsList s l 0 []

/-- Outcome of the streaming transcoder `Transform` (transform.go 133-180)
on a pre-decoded sequence of records: the row count reached together with
either the first unrecovered error or the encoded survivors in order. -/
inductive StreamResult where
  | panicked (rowsRead : Nat)
  | failed (rowsRead : Nat) (e : GoErr)
  | okRows (rowsRead : Nat) (outs : List Record)

/-- The decode/transform/encode loop of `Transform`: an error from
`TransformOne` aborts the stream at that row; a skipped row is simply not
encoded. -/
def transformStreamAux (s : List (String × SchemaField)) :
    List Record → Nat → List Record → StreamResult
  | [], n, outs => .okRows n outs
  | m :: ms, n, outs =>
    match TransformOne m s with
    | .panicked => .panicked (n + 1)
    | .failed e => .failed (n + 1) e
    | .skippedRow => transformStreamAux s ms (n + 1) outs
    | .kept r => transformStreamAux s ms (n + 1) (outs ++ [r])

/-- `Transform` (transform.go 133-180) with JSON decoding abstracted to a
list of already-decoded records. -/
def TransformStream (rows : List Record) (s : List (String × SchemaField)) : StreamResult :=
  transformStreamAux s rows 0 []

/-- A per-field step raised a missing-required-field error (which the
`onError` policy will then resolve). -/
def raisesMissing (r : StepRes) : Bool :=
  match r with
  | .next _ (some (.missingRequiredField _)) => true
  | _ => false

/-- The TIME conversion as the specification words it: lowercase both the
format and the value, widen a format ending in a bare `p` by appending `m`
to both the format and the input value, parse the value with the resulting
format, and re-emit 24-hour `HH:MM:SS`; the empty input string yields null
with no error. -/
def toTimeSpec (format s : String) : Except GoErr Value :=
  if s = "" then .ok .null
  else
    let f := toLowerStr format
    let widen := strEndsWith f "p"
    let f' := if widen then f ++ "m" else f
    let v' := if widen then toLowerStr s ++ "m" else toLowerStr s
    match goTimeParse f' v' with
    | some t => .ok (.str (formatHMS t))
    | none => .error (.timeParseErr f' v')

/-! ## JSON parsing (model of Go `encoding/json` decoding into `interface{}`)

The parser consumes exactly the grammar the serializer above emits (plus
arbitrary content inside strings/numbers); surrounding whitespace and
exponent number forms are not modelled.  Recursion is by explicit fuel;
`jsonParse` supplies fuel larger than the value size of any parse. -/

mutual

/-- Node count of a value (the fuel a parse of it needs). -/
def vsize : Value → Nat
  | .arr xs => 1 + sizeList xs
  | .obj kvs => 1 + msizeList kvs
  | _ => 1

/-- Combined size of array elements. -/
def sizeList : List Value → Nat
  | [] => 0
  | x :: t => 1 + vsize x + sizeList t

/-- Combined size of object members. -/
def msizeList : List (String × Value) → Nat
  | [] => 0
  | kv :: t => 1 + vsize kv.2 + msizeList t

end

/-- Strict lexicographic order on character lists (Go string `<`). -/
def charListLt : List Char → List Char → Bool
  | [], [] => false
  | [], _ :: _ => true
  | _ :: _, [] => false
  | a :: as, b :: bs => if a < b then true else if b < a then false else charListLt as bs

/-- Go string comparison `a < b`. -/
def strLt (a b : String) : Bool := charListLt a.toList b.toList

/-- Keys strictly ascending — the canonical association-list form of a Go
map (also the order `json.Marshal` writes map keys). -/
def keysSortedB : List (String × Value) → Bool
  | [] => true
  | [_] => true
  | (k1, _) :: (k2, v2) :: t =>
    strLt k1 k2 && keysSortedB ((k2, v2) :: t)

mutual

/-- `v` is a value `encoding/json` decoding into `interface{}` can produce:
no `json.Number` (that decoder is only used by the positional download
path), and objects are canonical sorted maps. -/
def decodedB : Value → Bool
  | .jsonNum _ => false
  | .arr xs => decodedListB xs
  | .obj kvs => keysSortedB kvs && decodedMembersB kvs
  | _ => true

/-- All array elements decoded. -/
def decodedListB : List Value → Bool
  | [] => true
  | x :: t => decodedB x && decodedListB t

/-- All object member values decoded. -/
def decodedMembersB : List (String × Value) → Bool
  | [] => true
  | kv :: t => decodedB kv.2 && decodedMembersB t

end

/-- Membership in the hex-digit alphabet. -/
def isHexDigitB (c : Char) : Bool :=
  c.isDigit || ('a' ≤ c && c ≤ 'f') || ('A' ≤ c && c ≤ 'F')

/-- Value of a hex digit. -/
def hexVal (c : Char) : Nat :=
  if c.isDigit then c.toNat - 48
  else if 'a' ≤ c ∧ c ≤ 'f' then c.toNat - 87
  else if 'A' ≤ c ∧ c ≤ 'F' then c.toNat - 55
  else 0

/-- JSON string-body parser: consumes characters (resolving escapes) up to
and including the closing quote, returning the decoded characters and the
remaining input. -/
def parseStrChars : List Char → Option (List Char × List Char)
  | [] => none
  | c :: r =>
    if c = '"' then some ([], r)
    else if c = '\\' then
      match r with
      | [] => none
      | e :: r2 =>
        if e = '"' ∨ e = '\\' ∨ e = '/' then
          (parseStrChars r2).map (fun p => (e :: p.1, p.2))
        else if e = 'b' then (parseStrChars r2).map (fun p => (Char.ofNat 8 :: p.1, p.2))
        else if e = 'f' then (parseStrChars r2).map (fun p => (Char.ofNat 12 :: p.1, p.2))
        else if e = 'n' then (parseStrChars r2).map (fun p => ('\n' :: p.1, p.2))
        else if e = 'r' then (parseStrChars r2).map (fun p => ('\r' :: p.1, p.2))
        else if e = 't' then (parseStrChars r2).map (fun p => ('\t' :: p.1, p.2))
        else if e = 'u' then
          match r2 with
          | a :: b :: c2 :: d :: r3 =>
            if isHexDigitB a && isHexDigitB b && isHexDigitB c2 && isHexDigitB d then
              (parseStrChars r3).map (fun p =>
                (Char.ofNat (hexVal a * 4096 + hexVal b * 256 + hexVal c2 * 16 + hexVal d)
                  :: p.1, p.2))
            else none
          | _ => none
        else none
    else (parseStrChars r).map (fun p => (c :: p.1, p.2))

/-- Positive decimal number: digits with an optional fraction, as
`(mantissa, scale)`. -/
def parsePosNum (cs : List Char) : Option ((Nat × Nat) × List Char) :=
  let intPart := cs.span Char.isDigit
  if intPart.1 = [] then none
  else
    match intPart.2 with
    | '.' :: r2 =>
      let frac := r2.span Char.isDigit
      if frac.1 = [] then none
      else some ((foldDigitsNat (intPart.1 ++ frac.1), frac.1.length), frac.2)
    | _ => some ((foldDigitsNat intPart.1, 0), intPart.2)

/-- A JSON number (with optional leading minus). -/
def parseNumV (cs : List Char) : Option (Value × List Char) :=
  match cs with
  | '-' :: r => (parsePosNum r).map (fun p => (.num (-(p.1.1 : Int)) p.1.2, p.2))
  | _ => (parsePosNum cs).map (fun p => (.num (p.1.1 : Int) p.1.2, p.2))

mutual

/-- One JSON value. -/
def parseV : Nat → List Char → Option (Value × List Char)
  | 0, _ => none
  | fuel + 1, cs =>
    match cs with
    | [] => none
    | c :: r =>
      if c = 'n' then
        match r with
        | 'u' :: 'l' :: 'l' :: r2 => some (.null, r2)
        | _ => none
      else if c = 't' then
        match r with
        | 'r' :: 'u' :: 'e' :: r2 => some (.bool true, r2)
        | _ => none
      else if c = 'f' then
        match r with
        | 'a' :: 'l' :: 's' :: 'e' :: r2 => some (.bool false, r2)
        | _ => none
      else if c = '"' then
        (parseStrChars r).map (fun p => (.str (String.mk p.1), p.2))
      else if c = '[' then
        match r with
        | [] => none
        | c2 :: r2 => if c2 = ']' then some (.arr [], r2) else parseElems fuel (c2 :: r2) []
      else if c = '{' then
        match r with
        | [] => none
        | c2 :: r2 => if c2 = '}' then some (.obj [], r2) else parseMembers fuel (c2 :: r2) []
      else parseNumV (c :: r)

/-- Comma-separated elements up to the closing bracket. -/
def parseElems : Nat → List Char → List Value → Option (Value × List Char)
  | 0, _, _ => none
  | fuel + 1, cs, acc =>
    match parseV fuel cs with
    | none => none
    | some (v, r) =>
      match r with
      | [] => none
      | c2 :: r2 =>
        if c2 = ',' then parseElems fuel r2 (acc ++ [v])
        else if c2 = ']' then some (.arr (acc ++ [v]), r2)
        else none

/-- Comma-separated `"key":value` members up to the closing brace. -/
def parseMembers : Nat → List Char → List (String × Value) → Option (Value × List Char)
  | 0, _, _ => none
  | fuel + 1, cs, acc =>
    match cs with
    | '"' :: r =>
      match parseStrChars r with
      | none => none
      | some (k, r1) =>
        match r1 with
        | ':' :: r2 =>
          match parseV fuel r2 with
          | none => none
          | some (v, r3) =>
            match r3 with
            | [] => none
            | c2 :: r4 =>
              if c2 = ',' then parseMembers fuel r4 (acc ++ [(String.mk k, v)])
              else if c2 = '}' then some (.obj (acc ++ [(String.mk k, v)]), r4)
              else none
        | _ => none
    | _ => none

end

/-- JSON decoding of a whole document, with fuel ample for its size. -/
def jsonParse (s : String) : Option Value :=
  match parseV (s.length + 1) s.toList with
  | some (v, []) => some v
  | _ => none

/-- The remaining input at which a serialized value can legally stop: the
end of the document or a delimiter of the enclosing composite. -/
def DelimHead : List Char → Prop
  | [] => True
  | c :: _ => c = ',' ∨ c = ']' ∨ c = '}'

/-! ## Helper lemmas for the chunk-window list -/

/-- Unfolding of one iteration of the chunk loop while `n < missing`. -/
theorem chunkWindowsAux_cons (missing pageSize fuel n : Nat) (hf : 0 < fuel)
    (hn : n < missing) :
    chunkWindowsAux missing pageSize fuel n =
      (n, chunkLimit missing pageSize n) ::
        chunkWindowsAux missing pageSize (fuel - 1) ((n + pageSize) % U64) := by
  obtain ⟨f, rfl⟩ : ∃ f, fuel = f + 1 := ⟨fuel - 1, by omega⟩
  simp [chunkWindowsAux, hn]

/-- The chunk loop exits as soon as `n < missing` fails. -/
theorem chunkWindowsAux_nil (missing pageSize fuel n : Nat) (hn : ¬ n < missing) :
    chunkWindowsAux missing pageSize fuel n = [] := by
  cases fuel <;> simp [chunkWindowsAux, hn]

/-! ## Claim C1: retry exhaustion -/

/-- C1 counterexample: when every `CopyChunk` attempt fails with `io.EOF`, the
retry loop of `syncOne` makes exactly 3 attempts and then falls through to
`wg.Done()` without reporting the exhausted failure: the goroutine ends in
`exhaustedSilently`, never in `fatalExit`, so the rest of the sync completes
— contradicting the claim that exhaustion is reported as fatal and aborts the
run. -/
theorem c1_counterexample :
    runChunkTask (fun _ => .eofErr) = .exhaustedSilently ∧
    (∀ m, runChunkTask (fun _ => .eofErr) ≠ .fatalExit m) ∧
    runChunkCalls (fun _ => .eofErr) = 3 := by
  refine ⟨rfl, ?_, rfl⟩
  intro m h
  rw [show runChunkTask (fun _ => .eofErr) = .exhaustedSilently from rfl] at h
  exact ChunkEnd.noConfusion h

/-- C1 amended: if `CopyChunk` fails with a transient truncation error
(`io.EOF`) on every attempt, the orchestrator retries the chunk exactly 3
times and then gives up silently: the failure is only logged, the goroutine
calls `wg.Done()`, and the surrounding sync completes without the chunk —
it is not reported as fatal. -/
theorem c1_amended_retry_exhaustion (res : Nat → AttemptResult)
    (h : ∀ i, i < 3 → res i = .eofErr) :
    runChunkTask res = .exhaustedSilently ∧ runChunkCalls res = 3 := by
  have h0 := h 0 (by omega)
  have h1 := h 1 (by omega)
  have h2 := h 2 (by omega)
  constructor <;>
    simp [runChunkTask, runChunkCalls, chunkRetryLoop, chunkRetryCalls, h0, h1, h2]

/-- C1 amended, witnessed at the all-EOF attempt sequence. -/
theorem c1_amended_retry_exhaustion_witness :
    (∀ i, i < 3 → (fun _ => AttemptResult.eofErr) i = AttemptResult.eofErr) ∧
    runChunkTask (fun _ => AttemptResult.eofErr) = .exhaustedSilently ∧
    runChunkCalls (fun _ => AttemptResult.eofErr) = 3 :=
  ⟨fun _ _ => rfl,
   (c1_amended_retry_exhaustion (fun _ => .eofErr) (fun _ _ => rfl)).1,
   (c1_amended_retry_exhaustion (fun _ => .eofErr) (fun _ _ => rfl)).2⟩

/-! ## Claim C9: wrapped missing-record count -/

/-- C9 counterexample: with an upstream (filtered) count of 0 and a warehouse
row count of 1, the warehouse exceeds the upstream, but `syncOne` returns at
the `sodataCount == 0` check before the `missing == 0` check, terminating
with nothing to do rather than scheduling chunk copies. -/
theorem c9_counterexample :
    (0 : Nat) < 1 ∧ syncDecision 0 1 = .noSourceRows ∧
    ∀ m, syncDecision 0 1 ≠ .scheduleChunks m := by
  refine ⟨by omega, rfl, ?_⟩
  intro m h
  rw [show syncDecision 0 1 = .noSourceRows from rfl] at h
  exact SyncDecision.noConfusion h

/-- C9 amended: whenever the upstream count is nonzero and the warehouse row
count exceeds it, `uint64(sodataCount) - tmd.NumRows` wraps modulo `2^64` to
the huge value `2^64 - (numRows - sodataCount)`, which is nonzero, so
`syncOne` proceeds to schedule chunk copies (the window list is nonempty for
every page size) instead of terminating with nothing to do. -/
theorem c9_amended_wraparound_schedules (s w : Nat)
    (hs : 0 < s) (hsw : s < w) (hw : w < U64) :
    missingRecords s w = U64 - (w - s) ∧
    syncDecision s w = .scheduleChunks (U64 - (w - s)) ∧
    ∀ pageSize, chunkWindows (missingRecords s w) pageSize ≠ [] := by
  have hU : U64 = 18446744073709551616 := rfl
  rw [hU] at hw
  have h1 : missingRecords s w = U64 - (w - s) := by
    unfold missingRecords
    rw [hU]
    omega
  have hpos : 0 < U64 - (w - s) := by rw [hU]; omega
  have hs' : s ≠ 0 := by omega
  refine ⟨h1, ?_, ?_⟩
  · simp [syncDecision, h1, hs', hpos.ne']
  · intro pageSize
    rw [h1, chunkWindows, chunkWindowsAux_cons _ _ _ _ (by omega) hpos]
    simp

/-- C9 amended, witnessed at source count 1, warehouse count 3, where the
wrapped missing count is `2^64 - 2`. -/
theorem c9_amended_wraparound_schedules_witness :
    (0 : Nat) < 1 ∧ (1 : Nat) < 3 ∧ (3 : Nat) < U64 ∧
    (missingRecords 1 3 = U64 - 2 ∧
     syncDecision 1 3 = .scheduleChunks (U64 - 2) ∧
     ∀ pageSize, chunkWindows (missingRecords 1 3) pageSize ≠ []) := by
  refine ⟨by omega, by omega, by rw [show U64 = 18446744073709551616 from rfl]; omega, ?_⟩
  exact c9_amended_wraparound_schedules 1 3 (by omega) (by omega)
    (by rw [show U64 = 18446744073709551616 from rfl]; omega)

/-! ## Claim C6: resume watermark filter -/

/-- C6 counterexample: with a warehouse maximum `_created_at` of `t = 5`
seconds, the derived filter is `:created_at >= '6'`, and a record ingested at
exactly second 6 is selected — yet 6 is not strictly after `t + 1s = 6`.  The
code's comparison is `>=`, so the filter selects records at or after
`t + 1s`, not strictly after it. -/
theorem c6_counterexample :
    syncWhere "" 1 5 = .derivedOnly 6 ∧
    clauseSelects (fun _ => true) (syncWhere "" 1 5) 6 = true ∧
    ¬ ((6 : Nat) > 5 + 1) := by
  refine ⟨by simp [syncWhere], ?_, by omega⟩
  simp [syncWhere, clauseSelects, createdFilterSelects]

/-- C6 amended: when the warehouse is non-empty with maximum `_created_at`
value `t ≠ 0`, `syncOne` derives the filter `:created_at >= '<t+1s>'` —
selecting records ingested *at or after* `t + 1s` (equivalently, strictly
after `t` at whole-second granularity) — and composes the final clause as the
user filter conjoined to it with `" and "`, or the derived filter alone when
no user filter is set; with zero warehouse rows only the user filter is
used. -/
theorem c6_amended_resume_filter (userWhere : String) (numRows maxCreated s : Nat)
    (U : Nat → Bool) (hrows : 0 < numRows) (ht : maxCreated ≠ 0) :
    syncWhere userWhere numRows maxCreated =
      (if userWhere = "" then .derivedOnly (maxCreated + 1)
       else .conjoined userWhere (maxCreated + 1)) ∧
    renderWhere (syncWhere userWhere numRows maxCreated) =
      composeWhere userWhere (createdAtFilter (maxCreated + 1)) ∧
    clauseSelects U (syncWhere userWhere numRows maxCreated) s =
      ((if userWhere = "" then true else U s) && decide (maxCreated + 1 ≤ s)) ∧
    (∀ u, syncWhere u 0 maxCreated = .userOnly u) := by
  have hand : 0 < numRows ∧ maxCreated ≠ 0 := ⟨hrows, ht⟩
  by_cases hu : userWhere = "" <;>
    simp [syncWhere, clauseSelects, renderWhere, composeWhere,
      createdFilterSelects, hu, hand]

/-- C6 amended, witnessed with user filter `"x"`, one warehouse row, watermark
5, a record at second 7, and a user predicate that accepts everything. -/
theorem c6_amended_resume_filter_witness :
    (0 : Nat) < 1 ∧ (5 : Nat) ≠ 0 ∧
    (syncWhere "x" 1 5 =
      (if "x" = "" then .derivedOnly 6 else .conjoined "x" 6) ∧
     renderWhere (syncWhere "x" 1 5) = composeWhere "x" (createdAtFilter 6) ∧
     clauseSelects (fun _ => true) (syncWhere "x" 1 5) 7 =
       ((if "x" = "" then true else true) && decide ((5 : Nat) + 1 ≤ 7)) ∧
     (∀ u, syncWhere u 0 5 = .userOnly u)) := by
  refine ⟨by omega, by omega, ?_⟩
  exact c6_amended_resume_filter "x" 1 5 7 (fun _ => true) (by omega) (by omega)

/-- Under the no-overflow hypothesis, the `remain` computation equals the
spec's `min(pageSize, missing - offset)`. -/
theorem chunkLimit_eq_min (missing pageSize n : Nat) (hM : missing + pageSize ≤ U64)
    (hn : n < missing) :
    chunkLimit missing pageSize n = min pageSize (missing - n) := by
  have hmod : (n + pageSize) % U64 = n + pageSize := Nat.mod_eq_of_lt (by omega)
  rw [chunkLimit, hmod]
  split <;> omega

/-- Every window generated from offset `n` (with no `uint64` overflow) starts
at or after `n`, stays inside `[0, missing)`, and has the `min` limit. -/
theorem chunkWindowsAux_mem_bounds (missing pageSize : Nat)
    (hM : missing + pageSize ≤ U64) (hp : 0 < pageSize) :
    ∀ fuel n w, w ∈ chunkWindowsAux missing pageSize fuel n →
      n ≤ w.1 ∧ w.1 + w.2 ≤ missing ∧ w.2 = min pageSize (missing - w.1) := by
  intro fuel
  induction fuel with
  | zero => intro n w hw; simp [chunkWindowsAux] at hw
  | succ fuel ih =>
    intro n w hw
    by_cases hn : n < missing
    · have hmod : (n + pageSize) % U64 = n + pageSize := Nat.mod_eq_of_lt (by omega)
      simp only [chunkWindowsAux, if_pos hn, List.mem_cons, hmod] at hw
      rcases hw with rfl | hw
      · have hlim := chunkLimit_eq_min missing pageSize n hM hn
        refine ⟨le_refl _, ?_, ?_⟩ <;> simp only [hlim] <;> omega
      · have := ih (n + pageSize) w hw
        exact ⟨by omega, this.2.1, this.2.2⟩
    · rw [chunkWindowsAux_nil _ _ _ _ hn] at hw
      simp at hw

/-- With enough fuel and no `uint64` overflow, the windows generated from
offset `n` cover exactly the indices of `[n, missing)`. -/
theorem chunkWindowsAux_cover (missing pageSize : Nat)
    (hM : missing + pageSize ≤ U64) (hp : 0 < pageSize) :
    ∀ fuel n, missing - n < fuel →
      ∀ k, (∃ w, w ∈ chunkWindowsAux missing pageSize fuel n ∧ inWindow w k) ↔
        (n ≤ k ∧ k < missing) := by
  intro fuel
  induction fuel with
  | zero => intro n h; omega
  | succ fuel ih =>
    intro n h k
    by_cases hn : n < missing
    · have hmod : (n + pageSize) % U64 = n + pageSize := Nat.mod_eq_of_lt (by omega)
      have hlim := chunkLimit_eq_min missing pageSize n hM hn
      constructor
      · rintro ⟨w, hw, hin⟩
        simp only [chunkWindowsAux, if_pos hn, List.mem_cons, hmod] at hw
        rcases hw with rfl | hw
        · have h1 : n ≤ k := hin.1
          have h2 : k < n + chunkLimit missing pageSize n := by
            have := hin.2; simpa using this
          rw [hlim] at h2
          omega
        · have := (ih (n + pageSize) (by omega) k).mp ⟨w, hw, hin⟩
          omega
      · rintro ⟨hk1, hk2⟩
        by_cases hkin : k < n + chunkLimit missing pageSize n
        · refine ⟨(n, chunkLimit missing pageSize n), ?_, ⟨hk1, hkin⟩⟩
          simp [chunkWindowsAux, if_pos hn]
        · have hge : n + pageSize ≤ k := by rw [hlim] at hkin; omega
          obtain ⟨w, hw, hin⟩ := (ih (n + pageSize) (by omega) k).mpr ⟨hge, hk2⟩
          refine ⟨w, ?_, hin⟩
          simp only [chunkWindowsAux, if_pos hn, List.mem_cons, hmod]
          right; exact hw
    · rw [chunkWindowsAux_nil _ _ _ _ hn]
      simp
      omega

/-- With no `uint64` overflow, no index is covered by two distinct generated
windows. -/
theorem chunkWindowsAux_unique (missing pageSize : Nat)
    (hM : missing + pageSize ≤ U64) (hp : 0 < pageSize) :
    ∀ fuel n k w1 w2, w1 ∈ chunkWindowsAux missing pageSize fuel n → inWindow w1 k →
      w2 ∈ chunkWindowsAux missing pageSize fuel n → inWindow w2 k → w1 = w2 := by
  intro fuel
  induction fuel with
  | zero => intro n k w1 w2 h1; simp [chunkWindowsAux] at h1
  | succ fuel ih =>
    intro n k w1 w2 h1 hin1 h2 hin2
    by_cases hn : n < missing
    · have hmod : (n + pageSize) % U64 = n + pageSize := Nat.mod_eq_of_lt (by omega)
      simp only [chunkWindowsAux, if_pos hn, List.mem_cons, hmod] at h1 h2
      have hlim := chunkLimit_eq_min missing pageSize n hM hn
      rcases h1 with rfl | h1 <;> rcases h2 with rfl | h2
      · rfl
      · exfalso
        have hb := chunkWindowsAux_mem_bounds missing pageSize hM hp fuel (n + pageSize) w2 h2
        have hk1 : k < n + chunkLimit missing pageSize n := by
          have := hin1.2; simpa using this
        have hk2 : w2.1 ≤ k := hin2.1
        rw [hlim] at hk1
        omega
      · exfalso
        have hb := chunkWindowsAux_mem_bounds missing pageSize hM hp fuel (n + pageSize) w1 h1
        have hk1 : k < n + chunkLimit missing pageSize n := by
          have := hin2.2; simpa using this
        have hk2 : w1.1 ≤ k := hin1.1
        rw [hlim] at hk1
        omega
      · exact ih (n + pageSize) k w1 w2 h1 hin1 h2 hin2
    · rw [chunkWindowsAux_nil _ _ _ _ hn] at h1
      simp at h1

/-! ## Claim C4: chunk window disjoint cover -/

/-- C4 counterexample: with `missingCount = 2^64 - 1` (exactly the wrapped
value the `uint64` subtraction of sync.go line 85 produces when the warehouse
is one row ahead of the source) and `pageSize = 2^64 - 2`, the increment
`n + pageSize` wraps modulo `2^64`, the `n+remain > missing` guard misfires,
and the generated windows `(2^64-2, 2^64-2)` and `(2^64-4, 2^64-2)` both
cover index `2^64-2`: the windows are neither disjoint nor of limit
`min(pageSize, missingCount - offset)`. -/
theorem c4_counterexample :
    0 < U64 - 1 ∧ 0 < U64 - 2 ∧ ¬ windowsExactCover (U64 - 1) (U64 - 2) := by
  refine ⟨by decide, by decide, ?_⟩
  intro h
  have e0 : (0 + (U64 - 2)) % U64 = U64 - 2 := by decide
  have e1 : ((U64 - 2) + (U64 - 2)) % U64 = U64 - 4 := by decide
  have l0 : chunkLimit (U64 - 1) (U64 - 2) 0 = U64 - 2 := by decide
  have l1 : chunkLimit (U64 - 1) (U64 - 2) (U64 - 2) = U64 - 2 := by decide
  have l2 : chunkLimit (U64 - 1) (U64 - 2) (U64 - 4) = U64 - 2 := by decide
  have step1 : chunkWindows (U64 - 1) (U64 - 2) =
      (0, U64 - 2) :: chunkWindowsAux (U64 - 1) (U64 - 2) (U64 - 1 + 1 - 1) (U64 - 2) := by
    rw [chunkWindows, chunkWindowsAux_cons _ _ _ _ (by decide) (by decide), e0, l0]
  have step2 : chunkWindowsAux (U64 - 1) (U64 - 2) (U64 - 1 + 1 - 1) (U64 - 2) =
      (U64 - 2, U64 - 2) ::
        chunkWindowsAux (U64 - 1) (U64 - 2) (U64 - 1 + 1 - 1 - 1) (U64 - 4) := by
    rw [chunkWindowsAux_cons _ _ _ _ (by decide) (by decide), e1, l1]
  have step3 : chunkWindowsAux (U64 - 1) (U64 - 2) (U64 - 1 + 1 - 1 - 1) (U64 - 4) =
      (U64 - 4, U64 - 2) ::
        chunkWindowsAux (U64 - 1) (U64 - 2) (U64 - 1 + 1 - 1 - 1 - 1)
          (((U64 - 4) + (U64 - 2)) % U64) := by
    rw [chunkWindowsAux_cons _ _ _ _ (by decide) (by decide), l2]
  have mem2 : (U64 - 2, U64 - 2) ∈ chunkWindows (U64 - 1) (U64 - 2) := by
    rw [step1, step2]
    exact List.mem_cons_of_mem _ (List.mem_cons_self _ _)
  have mem3 : (U64 - 4, U64 - 2) ∈ chunkWindows (U64 - 1) (U64 - 2) := by
    rw [step1, step2, step3]
    exact List.mem_cons_of_mem _ (List.mem_cons_of_mem _ (List.mem_cons_self _ _))
  obtain ⟨w, _hw, huniq⟩ := h (U64 - 2) (by decide)
  have e2 : (U64 - 2, U64 - 2) = w := huniq _ ⟨mem2, ⟨by decide, by decide⟩⟩
  have e3 : (U64 - 4, U64 - 2) = w := huniq _ ⟨mem3, ⟨by decide, by decide⟩⟩
  have hne : ((U64 - 2, U64 - 2) : Nat × Nat) ≠ (U64 - 4, U64 - 2) := by decide
  exact hne (e2.trans e3.symm)

/-- C4 amended: for every `missingCount > 0` and `pageSize > 0` **such that
`missingCount + pageSize` does not overflow `uint64`**, the generated windows
have limit `min(pageSize, missingCount - offset)` and cover `[0, missingCount)`
exactly once with no overlap (independent of any concurrency bound, which the
window generation never consults). -/
theorem c4_amended_chunk_cover (missing pageSize : Nat) (hm : 0 < missing)
    (hp : 0 < pageSize) (hM : missing + pageSize ≤ U64) :
    windowsExactCover missing pageSize ∧
    ∀ w ∈ chunkWindows missing pageSize, w.2 = min pageSize (missing - w.1) := by
  constructor
  · intro k hk
    obtain ⟨w, hw, hin⟩ :=
      (chunkWindowsAux_cover missing pageSize hM hp (missing + 1) 0 (by omega) k).mpr
        ⟨Nat.zero_le k, hk⟩
    refine ⟨w, ⟨hw, hin⟩, ?_⟩
    rintro y ⟨hy, hiny⟩
    exact chunkWindowsAux_unique missing pageSize hM hp (missing + 1) 0 k y w hy hiny hw hin
  · intro w hw
    unfold chunkWindows at hw
    exact (chunkWindowsAux_mem_bounds missing pageSize hM hp (missing + 1) 0 w hw).2.2

/-- C4 amended, witnessed at `missingCount = 5`, `pageSize = 2` (windows
`(0,2), (2,2), (4,1)`). -/
theorem c4_amended_chunk_cover_witness :
    (0 : Nat) < 5 ∧ (0 : Nat) < 2 ∧ 5 + 2 ≤ U64 ∧
    (windowsExactCover 5 2 ∧
     ∀ w ∈ chunkWindows 5 2, w.2 = min 2 (5 - w.1)) := by
  refine ⟨by omega, by omega, by decide, ?_⟩
  exact c4_amended_chunk_cover 5 2 (by omega) (by omega) (by decide)

/-! ## Claim C5: concurrency bound of ConcurrentLimit -/

/-- Acquiring a slot increases the number of running tasks by one. -/
theorem runningCount_set_running :
    ∀ (l : List TaskPhase) (i : Nat), l[i]? = some .waiting →
      runningCount (l.set i .running) = runningCount l + 1 := by
  intro l
  induction l with
  | nil => intro i h; simp at h
  | cons c t ih =>
    intro i h
    cases i with
    | zero =>
      simp at h
      subst h
      simp [runningCount]
    | succ j =>
      simp at h
      have hh := ih j h
      cases c <;> simp [runningCount, List.set_cons_succ] <;> omega

/-- Releasing a slot decreases the number of running tasks by one. -/
theorem runningCount_set_finished :
    ∀ (l : List TaskPhase) (i : Nat), l[i]? = some .running →
      runningCount (l.set i .finished) + 1 = runningCount l := by
  intro l
  induction l with
  | nil => intro i h; simp at h
  | cons c t ih =>
    intro i h
    cases i with
    | zero =>
      simp at h
      subst h
      simp [runningCount]
    | succ j =>
      simp at h
      have hh := ih j h
      cases c <;> simp [runningCount, List.set_cons_succ] <;> omega

/-- In the initial state every task is blocked and no slot is held. -/
theorem runningCount_replicate_waiting (k : Nat) :
    runningCount (List.replicate k .waiting) = 0 := by
  induction k with
  | zero => rfl
  | succ k ih => simp [List.replicate, runningCount, ih]

/-- C5: for a `ConcurrentLimit` built by `NewConcurrentLimit(n)`, in every
state reachable by interleaving `Run` calls — each call blocking on the
channel send until a slot is free, executing its task synchronously while the
slot is held, then releasing it — at most `n` tasks hold a slot (execute)
simultaneously. -/
theorem c5_concurrency_bound (n k : Nat) (l : List TaskPhase)
    (h : LimitReachable n k l) : runningCount l ≤ n := by
  unfold LimitReachable at h
  induction h with
  | refl => simp [runningCount_replicate_waiting]
  | @tail b c _hsteps hstep ih =>
    cases hstep with
    | acquire i hi hn => rw [runningCount_set_running b i hi]; omega
    | release i hi =>
      have := runningCount_set_finished b i hi
      omega

/-- C5, witnessed at capacity 2 with 3 tasks after one acquire step. -/
theorem c5_concurrency_bound_witness :
    LimitReachable 2 3 [.running, .waiting, .waiting] ∧
    runningCount [TaskPhase.running, .waiting, .waiting] ≤ 2 := by
  have hreach : LimitReachable 2 3 [.running, .waiting, .waiting] := by
    have h1 : LimitStep 2 (List.replicate 3 .waiting)
        ((List.replicate 3 .waiting).set 0 .running) :=
      LimitStep.acquire _ 0 (by decide) (by decide)
    exact Relation.ReflTransGen.single h1
  exact ⟨hreach, c5_concurrency_bound 2 3 _ hreach⟩

/-! ## Claims C2, C3, C10: per-field errors and the onError policy -/

/-- `ToTime` never produces a missing-required-field error itself. -/
theorem ToTime_not_missing (f s fld : String) :
    ToTime f s ≠ .error (.missingRequiredField fld) := by
  unfold ToTime
  split
  · simp
  · dsimp only
    split <;> simp

/-- `json.Number.Int64` never produces a missing-required-field error. -/
theorem jsonNumberInt64_not_missing (s fld : String) :
    jsonNumberInt64 s ≠ .error (.missingRequiredField fld) := by
  unfold jsonNumberInt64
  dsimp only
  split
  · split <;> split <;> simp
  · simp

/-- The geography conversions never set the error component. -/
theorem ToGeoJSON_snd (v : Value) : (ToGeoJSON v).2 = none := by
  cases v <;> rfl

/-- The location conversion never sets the error component. -/
theorem ToGeoJSONLocation_snd (v : Value) : (ToGeoJSONLocation v).2 = none := by
  unfold ToGeoJSONLocation
  split
  · rfl
  · split <;> rfl
  · rfl

/-- C2 counterexample: a NUMERIC field with `source_field_type = "text"`,
`required = true` and a null/absent source raises no missing-required-field
error: `TransformOne` keeps the record (the field is simply absent from the
output), even under the `ERROR` policy which would surface any raised
error. -/
theorem c2_counterexample :
    TransformOne [] [("a", ⟨"a", "text", NumericFieldType, "", true, RaiseError⟩)] = .kept [] ∧
    ∀ e, TransformOne [] [("a", ⟨"a", "text", NumericFieldType, "", true, RaiseError⟩)]
      ≠ .failed e := by
  refine ⟨rfl, ?_⟩
  intro e h
  rw [show TransformOne [] [("a", ⟨"a", "text", NumericFieldType, "", true, RaiseError⟩)]
      = .kept [] from rfl] at h
  exact TransformResult.noConfusion h

/-- C2 amended: required-field (missing-required) errors are raised exactly
in these cases.  Keyed variant (`TransformOne`): STRING/text-or-unset on an
empty-string or null source; DATE on a null source or on a successful
coercion to null (empty string); TIME on a null source only (a TIME empty
string coerces to null with no required check); NUMERIC, TIMESTAMP,
GEOGRAPHY and STRING/url never raise it.  Positional variant
(`TransformOneList`): the same, with NUMERIC/FLOAT, TIMESTAMP/DATETIME,
BOOLEAN and GEOGRAPHY never raising it.  The field's `onError` policy then
decides the outcome of a raised error: SKIP_ROW drops the row, SKIP_VALUE
nulls the field and keeps the record, ERROR propagates. -/
theorem c2_amended_required_fields :
    (∀ sf sft tf oe (req : Bool) (v : Value),
      raisesMissing (fieldStepKeyed "a" ⟨sf, sft, NumericFieldType, tf, req, oe⟩ v) = false) ∧
    (∀ sf sft tf oe (req : Bool) (v : Value),
      raisesMissing (fieldStepKeyed "a" ⟨sf, sft, TimestampFieldType, tf, req, oe⟩ v) = false) ∧
    (∀ sf sft tf oe (req : Bool) (v : Value),
      raisesMissing (fieldStepKeyed "a" ⟨sf, sft, GeographyFieldType, tf, req, oe⟩ v) = false) ∧
    (∀ sf sft tf oe (req : Bool) (v : Value),
      raisesMissing (fieldStepKeyed "a" ⟨sf, sft, TimeFieldType, tf, req, oe⟩ v)
        = (req && v.isNull)) ∧
    (∀ sf sft tf oe (req : Bool) (v : Value),
      raisesMissing (fieldStepKeyed "a" ⟨sf, sft, DateFieldType, tf, req, oe⟩ v)
        = (req && (v.isNull || v.isEmptyStr))) ∧
    (∀ sf tf oe (req : Bool) (v : Value),
      raisesMissing (fieldStepKeyed "a" ⟨sf, "text", StringFieldType, tf, req, oe⟩ v)
        = (req && (v.isEmptyStr || v.isNull))) ∧
    (∀ sf tf oe (req : Bool) (v : Value),
      raisesMissing (fieldStepKeyed "a" ⟨sf, "url", StringFieldType, tf, req, oe⟩ v) = false) ∧
    (∀ sf sft tf oe (req : Bool) (v : Value),
      raisesMissing (fieldStepList "a" ⟨sf, sft, NumericFieldType, tf, req, oe⟩ v) = false) ∧
    (∀ sf sft tf oe (req : Bool) (v : Value),
      raisesMissing (fieldStepList "a" ⟨sf, sft, FloatFieldType, tf, req, oe⟩ v) = false) ∧
    (∀ sf sft tf oe (req : Bool) (v : Value),
      raisesMissing (fieldStepList "a" ⟨sf, sft, TimestampFieldType, tf, req, oe⟩ v) = false) ∧
    (∀ sf sft tf oe (req : Bool) (v : Value),
      raisesMissing (fieldStepList "a" ⟨sf, sft, BooleanFieldType, tf, req, oe⟩ v) = false) ∧
    (∀ sf sft tf oe (req : Bool) (v : Value),
      raisesMissing (fieldStepList "a" ⟨sf, sft, GeographyFieldType, tf, req, oe⟩ v) = false) ∧
    (∀ sf sft tf oe (req : Bool) (v : Value),
      raisesMissing (fieldStepList "a" ⟨sf, sft, TimeFieldType, tf, req, oe⟩ v)
        = (req && v.isNull)) ∧
    (∀ sf sft tf oe (req : Bool) (v : Value),
      raisesMissing (fieldStepList "a" ⟨sf, sft, DateFieldType, tf, req, oe⟩ v)
        = (req && (v.isNull || v.isEmptyStr))) ∧
    (∀ sf tf oe (req : Bool) (v : Value),
      raisesMissing (fieldStepList "a" ⟨sf, "text", StringFieldType, tf, req, oe⟩ v)
        = (req && (v.isEmptyStr || v.isNull))) ∧
    TransformOne [("a", .str "")] [("a", ⟨"a", "text", StringFieldType, "", true, SkipRow⟩)]
      = .skippedRow ∧
    TransformOne [("a", .str "")] [("a", ⟨"a", "text", StringFieldType, "", true, SkipValue⟩)]
      = .kept [("a", .null)] ∧
    TransformOne [("a", .str "")] [("a", ⟨"a", "text", StringFieldType, "", true, RaiseError⟩)]
      = .failed (.missingRequiredField "a") := by
  refine ⟨?_, ?_, ?_, ?_, ?_, ?_, ?_, ?_, ?_, ?_, ?_, ?_, ?_, ?_, ?_, rfl, rfl, rfl⟩
  · intro sf sft tf oe req v
    by_cases hs : sft = "text"
    · subst hs
      cases v with
      | str s =>
        cases hp : goParseFloat (stripCommas s) <;>
          simp [fieldStepKeyed, raisesMissing, hp, NumericFieldType]
      | _ => simp [fieldStepKeyed, raisesMissing, NumericFieldType]
    · simp [fieldStepKeyed, raisesMissing, hs, NumericFieldType]
  · intro sf sft tf oe req v
    simp [fieldStepKeyed, raisesMissing, TimestampFieldType, NumericFieldType, StringFieldType,
      GeographyFieldType, DateFieldType, TimeFieldType]
  · intro sf sft tf oe req v
    by_cases hs : sft = "point" <;>
      cases v <;>
        simp [fieldStepKeyed, raisesMissing, ToGeoJSON, hs, GeographyFieldType,
          NumericFieldType, StringFieldType]
  · intro sf sft tf oe req v
    cases v with
    | null =>
      cases req <;>
        simp [fieldStepKeyed, timeFieldStep, raisesMissing, Value.isNull, TimeFieldType,
          NumericFieldType, StringFieldType, GeographyFieldType, DateFieldType]
    | str s =>
      cases htt : ToTime tf s with
      | ok w =>
        simp [fieldStepKeyed, timeFieldStep, raisesMissing, htt, Value.isNull, TimeFieldType,
          NumericFieldType, StringFieldType, GeographyFieldType, DateFieldType]
      | error e =>
        cases e with
        | missingRequiredField fld => exact absurd htt (ToTime_not_missing tf s fld)
        | _ =>
          simp [fieldStepKeyed, timeFieldStep, raisesMissing, htt, Value.isNull, TimeFieldType,
            NumericFieldType, StringFieldType, GeographyFieldType, DateFieldType]
    | _ =>
      simp [fieldStepKeyed, timeFieldStep, raisesMissing, Value.isNull, TimeFieldType,
        NumericFieldType, StringFieldType, GeographyFieldType, DateFieldType]
  · intro sf sft tf oe req v
    cases v with
    | null =>
      cases req <;>
        simp [fieldStepKeyed, dateFieldStep, raisesMissing, Value.isNull, Value.isEmptyStr,
          DateFieldType, NumericFieldType, StringFieldType, GeographyFieldType]
    | str s =>
      by_cases hs : s = ""
      · subst hs
        cases req <;>
          simp [fieldStepKeyed, dateFieldStep, raisesMissing, ToDate, Value.isNull,
            Value.isEmptyStr, DateFieldType, NumericFieldType, StringFieldType,
            GeographyFieldType]
      · cases hp : goTimeParse tf s <;>
          simp [fieldStepKeyed, dateFieldStep, raisesMissing, ToDate, hs, hp, Value.isNull,
            Value.isEmptyStr, DateFieldType, NumericFieldType, StringFieldType,
            GeographyFieldType]
    | _ =>
      simp [fieldStepKeyed, dateFieldStep, raisesMissing, Value.isNull, Value.isEmptyStr,
        DateFieldType, NumericFieldType, StringFieldType, GeographyFieldType]
  · intro sf tf oe req v
    cases hb : req && (v.isEmptyStr || v.isNull) <;>
      simp_all [fieldStepKeyed, raisesMissing, StringFieldType, NumericFieldType]
  · intro sf tf oe req v
    cases v <;> simp [fieldStepKeyed, raisesMissing, StringFieldType, NumericFieldType]
  · intro sf sft tf oe req v
    by_cases hs : sft = "number"
    · subst hs
      cases v with
      | str s => by_cases h : s = "" <;> simp [fieldStepList, raisesMissing, NumericFieldType, h]
      | _ => simp [fieldStepList, raisesMissing, NumericFieldType]
    · simp [fieldStepList, raisesMissing, hs, NumericFieldType]
  · intro sf sft tf oe req v
    by_cases hs : sft = "number"
    · subst hs
      cases v with
      | str s =>
        by_cases h : s = "" <;>
          simp [fieldStepList, raisesMissing, FloatFieldType, NumericFieldType, h]
      | _ => simp [fieldStepList, raisesMissing, FloatFieldType, NumericFieldType]
    · simp [fieldStepList, raisesMissing, hs, FloatFieldType, NumericFieldType]
  · intro sf sft tf oe req v
    by_cases hs : sft = "json.Number"
    · subst hs
      cases v with
      | jsonNum s =>
        cases hj : jsonNumberInt64 s with
        | ok c =>
          simp [fieldStepList, raisesMissing, hj, TimestampFieldType, NumericFieldType,
            FloatFieldType, StringFieldType, GeographyFieldType, DateFieldType, TimeFieldType]
        | error e =>
          cases e with
          | missingRequiredField fld => exact absurd hj (jsonNumberInt64_not_missing s fld)
          | _ =>
            simp [fieldStepList, raisesMissing, hj, TimestampFieldType, NumericFieldType,
              FloatFieldType, StringFieldType, GeographyFieldType, DateFieldType, TimeFieldType]
      | _ =>
        simp [fieldStepList, raisesMissing, TimestampFieldType, NumericFieldType,
          FloatFieldType, StringFieldType, GeographyFieldType, DateFieldType, TimeFieldType]
    · simp [fieldStepList, raisesMissing, hs, TimestampFieldType, NumericFieldType,
        FloatFieldType, StringFieldType, GeographyFieldType, DateFieldType, TimeFieldType]
  · intro sf sft tf oe req v
    cases v <;>
      simp [fieldStepList, raisesMissing, BooleanFieldType, NumericFieldType, FloatFieldType,
        StringFieldType, GeographyFieldType, DateFieldType, TimeFieldType, TimestampFieldType,
        DateTimeFieldType]
  · intro sf sft tf oe req v
    by_cases h1 : sft = "point"
    · simp [fieldStepList, raisesMissing, ToGeoJSONPoint, ToGeoJSON_snd, h1, GeographyFieldType,
        NumericFieldType, FloatFieldType, StringFieldType]
    · by_cases h2 : sft = "location"
      · simp [fieldStepList, raisesMissing, ToGeoJSONLocation_snd, h1, h2, GeographyFieldType,
          NumericFieldType, FloatFieldType, StringFieldType]
      · simp [fieldStepList, raisesMissing, h1, h2, GeographyFieldType, NumericFieldType,
          FloatFieldType, StringFieldType]
  · intro sf sft tf oe req v
    cases v with
    | null =>
      cases req <;>
        simp [fieldStepList, timeFieldStep, raisesMissing, Value.isNull, TimeFieldType,
          NumericFieldType, FloatFieldType, StringFieldType, GeographyFieldType, DateFieldType]
    | str s =>
      cases htt : ToTime tf s with
      | ok w =>
        simp [fieldStepList, timeFieldStep, raisesMissing, htt, Value.isNull, TimeFieldType,
          NumericFieldType, FloatFieldType, StringFieldType, GeographyFieldType, DateFieldType]
      | error e =>
        cases e with
        | missingRequiredField fld => exact absurd htt (ToTime_not_missing tf s fld)
        | _ =>
          simp [fieldStepList, timeFieldStep, raisesMissing, htt, Value.isNull, TimeFieldType,
            NumericFieldType, FloatFieldType, StringFieldType, GeographyFieldType, DateFieldType]
    | _ =>
      simp [fieldStepList, timeFieldStep, raisesMissing, Value.isNull, TimeFieldType,
        NumericFieldType, FloatFieldType, StringFieldType, GeographyFieldType, DateFieldType]
  · intro sf sft tf oe req v
    cases v with
    | null =>
      cases req <;>
        simp [fieldStepList, dateFieldStep, raisesMissing, Value.isNull, Value.isEmptyStr,
          DateFieldType, NumericFieldType, FloatFieldType, StringFieldType, GeographyFieldType]
    | str s =>
      by_cases hs : s = ""
      · subst hs
        cases req <;>
          simp [fieldStepList, dateFieldStep, raisesMissing, ToDate, Value.isNull,
            Value.isEmptyStr, DateFieldType, NumericFieldType, FloatFieldType, StringFieldType,
            GeographyFieldType]
      · cases hp : goTimeParse tf s <;>
          simp [fieldStepList, dateFieldStep, raisesMissing, ToDate, hs, hp, Value.isNull,
            Value.isEmptyStr, DateFieldType, NumericFieldType, FloatFieldType, StringFieldType,
            GeographyFieldType]
    | _ =>
      simp [fieldStepList, dateFieldStep, raisesMissing, Value.isNull, Value.isEmptyStr,
        DateFieldType, NumericFieldType, FloatFieldType, StringFieldType, GeographyFieldType]
  · intro sf tf oe req v
    cases hb : req && (v.isEmptyStr || v.isNull) <;>
      simp_all [fieldStepList, raisesMissing, StringFieldType, NumericFieldType, FloatFieldType]

/-- C3 counterexample: a field mapping sourceType `number` to targetType
STRING has no defined conversion; with `onError = SKIP_ROW` the claim says
only that row is abandoned and subsequent rows continue — but the code
returns the unhandled-conversion error directly, bypassing the policy
switch, so `TransformOne` fails and the surrounding stream aborts at row 1
with the second row never processed. -/
theorem c3_counterexample :
    TransformOne [("a", .str "x")] [("a", ⟨"a", "number", StringFieldType, "", false, SkipRow⟩)]
      = .failed (.unhandledConversion "number" "STRING" "a") ∧
    (GoErr.unhandledConversion "number" "STRING" "a").message
      = "unhandled conversion from \"number\" to \"STRING\" for field a" ∧
    TransformStream [[("a", .str "x")], [("a", .str "y")]]
        [("a", ⟨"a", "number", StringFieldType, "", false, SkipRow⟩)]
      = .failed 1 (.unhandledConversion "number" "STRING" "a") :=
  ⟨rfl, rfl, rfl⟩

/-- C3 amended: an undefined (sourceType, targetType) conversion always
produces the explicit "unhandled conversion from `<source>` to `<target>`"
error and is never silently swallowed — but the `onError` policy does NOT
govern the outcome: both transform variants return the error for every
policy value (the early `return` bypasses the policy switch), and the
surrounding stream aborts at that row under every policy, not only under
RAISE. -/
theorem c3_amended_unhandled_conversion :
    (∀ (oe : String) (m : Record) (sf tf : String) (req : Bool),
      TransformOne m [("a", ⟨sf, "number", StringFieldType, tf, req, oe⟩)]
        = .failed (.unhandledConversion "number" "STRING" "a")) ∧
    (∀ (oe : String) (v : Value) (sf tf : String) (req : Bool),
      TransformOneList [v] [("a", ⟨sf, "number", StringFieldType, tf, req, oe⟩)]
        = .failed (.unhandledConversion "number" "STRING" "a")) ∧
    (∀ (oe : String) (rows : List Record) (m : Record) (sf tf : String) (req : Bool),
      TransformStream (m :: rows) [("a", ⟨sf, "number", StringFieldType, tf, req, oe⟩)]
        = .failed 1 (.unhandledConversion "number" "STRING" "a")) :=
  ⟨fun _ _ _ _ _ => rfl, fun _ _ _ _ _ => rfl, fun _ _ _ _ _ _ => rfl⟩

/-- C10: when a per-field coercion fails and the descriptor's `on_error`
value is none of SKIP_VALUE, SKIP_ROW, the empty string, or ERROR, the
policy switch matches no case and falls through: the error is discarded,
processing continues, and the record is kept with whatever the failed
conversion left stored — the keyed NUMERIC/text parse failure leaves the
zero value `ParseFloat` returned, and the positional DATE parse failure
leaves the null that `ToDate` returned. -/
theorem c10_unknown_onerror (oe : String)
    (h1 : oe ≠ SkipValue) (h2 : oe ≠ SkipRow) (h3 : oe ≠ "") (h4 : oe ≠ RaiseError) :
    TransformOne [("a", .str "abc")] [("a", ⟨"a", "text", NumericFieldType, "", false, oe⟩)]
      = .kept [("a", .num 0 0)] ∧
    TransformOneList [.str "xx"] [("a", ⟨"a", "text", DateFieldType, "15:04", false, oe⟩)]
      = .kept [("a", .null)] := by
  have hA : ∀ (out : Record) (f : String) (e : GoErr) (cont : Record → TransformResult),
      applyOnError oe out f e cont = cont out := by
    intro out f e cont
    simp only [SkipValue] at h1
    simp only [SkipRow] at h2
    simp only [RaiseError] at h4
    simp [applyOnError, h1, h2, h3, h4, SkipValue, SkipRow, RaiseError]
  constructor
  · rw [show TransformOne [("a", .str "abc")]
          [("a", ⟨"a", "text", NumericFieldType, "", false, oe⟩)]
        = applyOnError oe [("a", .num 0 0)] "a" (.parseFloatErr "abc")
            (transformFieldsKeyed [("a", .str "abc")] []) from rfl, hA]
    rfl
  · rw [show TransformOneList [.str "xx"]
          [("a", ⟨"a", "text", DateFieldType, "15:04", false, oe⟩)]
        = applyOnError oe [("a", .null)] "a"
            (.timeParseErr "15:04" "xx")
            (fun o => transformFieldsList
              [("a", ⟨"a", "text", DateFieldType, "15:04", false, oe⟩)] [] 1 o) from rfl, hA]
    rfl

/-- C10, witnessed at the misspelled policy `"SKIP"`. -/
theorem c10_unknown_onerror_witness :
    ("SKIP" ≠ SkipValue ∧ "SKIP" ≠ SkipRow ∧ "SKIP" ≠ "" ∧ "SKIP" ≠ RaiseError) ∧
    (TransformOne [("a", .str "abc")] [("a", ⟨"a", "text", NumericFieldType, "", false, "SKIP"⟩)]
       = .kept [("a", .num 0 0)] ∧
     TransformOneList [.str "xx"] [("a", ⟨"a", "text", DateFieldType, "15:04", false, "SKIP"⟩)]
       = .kept [("a", .null)]) :=
  ⟨⟨by decide, by decide, by decide, by decide⟩,
   c10_unknown_onerror "SKIP" (by decide) (by decide) (by decide) (by decide)⟩

/-! ## Claim C7: the TIME conversion -/

/-- C7: `ToTime` behaves exactly as the claim describes — it lowercases both
the format and the value, widens a format ending in a bare `p` by appending
`m` to both the format and the input value, parses the value with the
resulting format, and re-emits 24-hour `HH:MM:SS`; the empty input yields
null with no error; and in particular `ToTime "0304p" "1001p" = "22:01:00"`
and `ToTime "15:04" "10:01" = "10:01:00"`. -/
theorem c7_totime :
    (∀ format s, ToTime format s = toTimeSpec format s) ∧
    ToTime "0304p" "1001p" = .ok (.str "22:01:00") ∧
    ToTime "15:04" "10:01" = .ok (.str "10:01:00") ∧
    (∀ format, ToTime format "" = .ok .null) :=
  ⟨fun _ _ => rfl, rfl, rfl, fun _ => rfl⟩

/-! ## Digit and number lemmas for the JSON round-trip -/

/-- Accumulator form of the digit emitter. -/
theorem natDigitsAux_acc :
    ∀ fuel n acc, natDigitsAux fuel n acc = natDigitsAux fuel n [] ++ acc := by
  intro fuel
  induction fuel with
  | zero => intro n acc; simp [natDigitsAux]
  | succ f ih =>
    intro n acc
    by_cases h : n < 10
    · simp [natDigitsAux, h]
    · simp only [natDigitsAux, if_neg h]
      rw [ih (n / 10) (Char.ofNat (48 + n % 10) :: acc),
        ih (n / 10) [Char.ofNat (48 + n % 10)]]
      simp

/-- The digit emitter ignores extra fuel. -/
theorem natDigitsAux_extra :
    ∀ n fuel1 fuel2 acc, n < fuel1 → n < fuel2 →
      natDigitsAux fuel1 n acc = natDigitsAux fuel2 n acc := by
  intro n
  induction n using Nat.strong_induction_on with
  | _ n ih =>
    intro fuel1 fuel2 acc h1 h2
    obtain ⟨f1, rfl⟩ : ∃ f, fuel1 = f + 1 := ⟨fuel1 - 1, by omega⟩
    obtain ⟨f2, rfl⟩ : ∃ f, fuel2 = f + 1 := ⟨fuel2 - 1, by omega⟩
    by_cases h : n < 10
    · simp [natDigitsAux, h]
    · simp only [natDigitsAux, if_neg h]
      exact ih (n / 10) (by omega) f1 f2 _ (by omega) (by omega)

/-- Unfolding of `natDigits` at a multi-digit number. -/
theorem natDigits_step (n : Nat) (h : ¬ n < 10) :
    natDigits n = natDigits (n / 10) ++ [Char.ofNat (48 + n % 10)] := by
  have h1 : natDigits n = natDigitsAux n (n / 10) [Char.ofNat (48 + n % 10)] := by
    rw [natDigits]
    simp [natDigitsAux, h]
  rw [h1, natDigitsAux_acc,
    natDigitsAux_extra (n / 10) n (n / 10 + 1) [] (by omega) (by omega)]
  rfl

/-- `natDigits` at a single-digit number. -/
theorem natDigits_single (n : Nat) (h : n < 10) :
    natDigits n = [Char.ofNat (48 + n)] := by
  simp [natDigits, natDigitsAux, h]

/-- A digit-valued `Char.ofNat` lands in the ASCII digit range. -/
theorem ofNat_digit_isDigit (d : Nat) (h : d < 10) :
    (Char.ofNat (48 + d)).isDigit = true := by
  interval_cases d <;> decide

/-- Every emitted digit character is an ASCII digit. -/
theorem natDigits_all_digit (n : Nat) : ∀ c ∈ natDigits n, c.isDigit = true := by
  induction n using Nat.strong_induction_on with
  | _ n ih =>
    by_cases h : n < 10
    · rw [natDigits_single n h]
      intro c hc
      rw [List.mem_singleton] at hc
      subst hc
      exact ofNat_digit_isDigit n h
    · rw [natDigits_step n h]
      intro c hc
      rcases List.mem_append.mp hc with hc | hc
      · exact ih (n / 10) (by omega) c hc
      · rw [List.mem_singleton] at hc
        subst hc
        exact ofNat_digit_isDigit (n % 10) (by omega)

/-- The digit list is never empty. -/
theorem natDigits_ne_nil (n : Nat) : natDigits n ≠ [] := by
  by_cases h : n < 10
  · simp [natDigits, natDigitsAux, h]
  · rw [natDigits_step n h]
    simp

/-- Reading a single digit character back. -/
theorem digitVal_ofNat (d : Nat) (h : d < 10) : digitVal (Char.ofNat (48 + d)) = d := by
  interval_cases d <;> decide

/-- Reading back a digit run extended by one digit. -/
theorem foldDigitsNat_append_single (ds : List Char) (c : Char) :
    foldDigitsNat (ds ++ [c]) = foldDigitsNat ds * 10 + digitVal c := by
  simp [foldDigitsNat, List.foldl_append]

/-- The digit emitter and the digit reader are inverse. -/
theorem foldDigitsNat_natDigits (n : Nat) : foldDigitsNat (natDigits n) = n := by
  induction n using Nat.strong_induction_on with
  | _ n ih =>
    by_cases h : n < 10
    · rw [natDigits_single n h,
        show foldDigitsNat [Char.ofNat (48 + n)]
          = 0 * 10 + digitVal (Char.ofNat (48 + n)) from rfl,
        digitVal_ofNat n h]
      omega
    · rw [natDigits_step n h, foldDigitsNat_append_single, ih (n / 10) (by omega),
        digitVal_ofNat (n % 10) (by omega)]
      omega

/-- A leading zero drops out of the digit read-back. -/
theorem foldDigitsNat_cons_zero (l : List Char) :
    foldDigitsNat ('0' :: l) = foldDigitsNat l := by
  have h0 : (0 : Nat) * 10 + digitVal '0' = 0 := by decide
  simp only [foldDigitsNat, List.foldl_cons, h0]

/-- Leading zeros do not change the value a digit run reads back to. -/
theorem foldDigitsNat_replicate_zero (k : Nat) (ds : List Char) :
    foldDigitsNat (List.replicate k '0' ++ ds) = foldDigitsNat ds := by
  induction k with
  | zero => rfl
  | succ k ih =>
    rw [List.replicate_succ, List.cons_append, foldDigitsNat_cons_zero, ih]

/-! ## Span and number-parse round-trip lemmas -/

/-- `takeWhile isDigit` consumes exactly an all-digit prefix. -/
theorem takeWhile_digits_append (ds rest : List Char)
    (hds : ∀ c ∈ ds, c.isDigit = true)
    (hrest : ∀ c cs, rest = c :: cs → c.isDigit = false) :
    (ds ++ rest).takeWhile Char.isDigit = ds := by
  induction ds with
  | nil =>
    cases rest with
    | nil => rfl
    | cons c cs => simp [List.takeWhile_cons, hrest c cs rfl]
  | cons d t ih =>
    have hd : d.isDigit = true := hds d (by simp)
    have ht : ∀ c ∈ t, c.isDigit = true := fun c hc => hds c (by simp [hc])
    simp [List.takeWhile_cons, hd, ih ht]

/-- `dropWhile isDigit` leaves exactly the tail after an all-digit prefix. -/
theorem dropWhile_digits_append (ds rest : List Char)
    (hds : ∀ c ∈ ds, c.isDigit = true)
    (hrest : ∀ c cs, rest = c :: cs → c.isDigit = false) :
    (ds ++ rest).dropWhile Char.isDigit = rest := by
  induction ds with
  | nil =>
    cases rest with
    | nil => rfl
    | cons c cs => simp [List.dropWhile_cons, hrest c cs rfl]
  | cons d t ih =>
    have hd : d.isDigit = true := hds d (by simp)
    have ht : ∀ c ∈ t, c.isDigit = true := fun c hc => hds c (by simp [hc])
    simp [List.dropWhile_cons, hd, ih ht]

/-- `span isDigit` splits exactly at the end of an all-digit prefix. -/
theorem span_digits_append (ds rest : List Char)
    (hds : ∀ c ∈ ds, c.isDigit = true)
    (hrest : ∀ c cs, rest = c :: cs → c.isDigit = false) :
    (ds ++ rest).span Char.isDigit = (ds, rest) := by
  rw [List.span_eq_take_drop, takeWhile_digits_append ds rest hds hrest,
    dropWhile_digits_append ds rest hds hrest]

/-- `parsePosNum` on an undotted digit run followed by a non-number character. -/
theorem parsePosNum_digits (ds rest : List Char) (hne : ds ≠ [])
    (hds : ∀ c ∈ ds, c.isDigit = true)
    (hrest : ∀ c cs, rest = c :: cs → c.isDigit = false ∧ c ≠ '.') :
    parsePosNum (ds ++ rest) = some ((foldDigitsNat ds, 0), rest) := by
  simp only [parsePosNum,
    span_digits_append ds rest hds (fun c cs h => (hrest c cs h).1)]
  rw [if_neg hne]
  cases rest with
  | nil => rfl
  | cons c cs =>
    have hc : c ≠ '.' := (hrest c cs rfl).2
    split
    · next r2 heq =>
      injection heq with h1 _
      exact absurd h1 hc
    · rfl

/-- `parsePosNum` on a dotted digit run followed by a non-number character. -/
theorem parsePosNum_digits_dot (a b rest : List Char) (ha : a ≠ []) (hb : b ≠ [])
    (hda : ∀ c ∈ a, c.isDigit = true) (hdb : ∀ c ∈ b, c.isDigit = true)
    (hrest : ∀ c cs, rest = c :: cs → c.isDigit = false) :
    parsePosNum (a ++ '.' :: (b ++ rest))
      = some ((foldDigitsNat (a ++ b), b.length), rest) := by
  have hdot : ∀ c cs, ('.' :: (b ++ rest)) = c :: cs → c.isDigit = false := by
    intro c cs h
    injection h with h1 _
    rw [← h1]
    decide
  simp only [parsePosNum, span_digits_append a ('.' :: (b ++ rest)) hda hdot]
  rw [if_neg ha]
  simp only [span_digits_append b rest hdb hrest]
  rw [if_neg hb]

/-- The zero-padded digit list behind `serializeNumCore` is all digits. -/
theorem padDigits_all (n k : Nat) :
    ∀ c ∈ List.replicate k '0' ++ natDigits n, c.isDigit = true := by
  intro c hc
  rcases List.mem_append.mp hc with hc | hc
  · rw [List.eq_of_mem_replicate hc]
    decide
  · exact natDigits_all_digit n c hc

/-- The zero-padded digit list reads back to `n`. -/
theorem padDigits_fold (n k : Nat) :
    foldDigitsNat (List.replicate k '0' ++ natDigits n) = n := by
  rw [foldDigitsNat_replicate_zero, foldDigitsNat_natDigits]

/-- `parsePosNum` reads `serializeNumCore` back exactly, leaving any tail
that does not extend the number. -/
theorem parsePosNum_serializeNumCore (n e : Nat) (rest : List Char)
    (hrest : ∀ c cs, rest = c :: cs → c.isDigit = false ∧ c ≠ '.') :
    parsePosNum (serializeNumCore n e ++ rest) = some ((n, e), rest) := by
  have hlen : 1 ≤ (natDigits n).length := List.length_pos.mpr (natDigits_ne_nil n)
  by_cases he : e = 0
  · subst he
    have hz : 0 + 1 - (natDigits n).length = 0 := by omega
    simp only [serializeNumCore, hz, List.replicate_zero, List.nil_append,
      eq_self_iff_true, if_true]
    rw [parsePosNum_digits (natDigits n) rest (natDigits_ne_nil n)
      (natDigits_all_digit n) hrest, foldDigitsNat_natDigits]
  · simp only [serializeNumCore, if_neg he]
    set ds := List.replicate (e + 1 - (natDigits n).length) '0' ++ natDigits n with hds
    have hL : e + 1 ≤ ds.length := by
      rw [hds, List.length_append, List.length_replicate]
      omega
    have htlen : (ds.take (ds.length - e)).length = ds.length - e := by
      rw [List.length_take]
      omega
    have hdlen : (ds.drop (ds.length - e)).length = e := by
      rw [List.length_drop]
      omega
    have hta : ds.take (ds.length - e) ≠ [] := by
      intro h
      rw [h] at htlen
      simp at htlen
      omega
    have hda : ds.drop (ds.length - e) ≠ [] := by
      intro h
      rw [h] at hdlen
      simp at hdlen
      omega
    have hall := padDigits_all n (e + 1 - (natDigits n).length)
    rw [← hds] at hall
    have htd : ∀ c ∈ ds.take (ds.length - e), c.isDigit = true :=
      fun c hc => hall c (List.take_subset _ _ hc)
    have hdd : ∀ c ∈ ds.drop (ds.length - e), c.isDigit = true :=
      fun c hc => hall c (List.drop_subset _ _ hc)
    rw [List.append_assoc, List.cons_append,
      parsePosNum_digits_dot (ds.take (ds.length - e)) (ds.drop (ds.length - e)) rest
        hta hda htd hdd (fun c cs h => (hrest c cs h).1),
      List.take_append_drop, hdlen]
    have hfold := padDigits_fold n (e + 1 - (natDigits n).length)
    rw [← hds] at hfold
    rw [hfold]

/-- `serializeNumCore` starts with a digit. -/
theorem serializeNumCore_head (n e : Nat) :
    ∃ c cs, serializeNumCore n e = c :: cs ∧ c.isDigit = true := by
  have hlen : 1 ≤ (natDigits n).length := List.length_pos.mpr (natDigits_ne_nil n)
  have hall := padDigits_all n (e + 1 - (natDigits n).length)
  obtain ⟨c, t, hct⟩ : ∃ c t,
      List.replicate (e + 1 - (natDigits n).length) '0' ++ natDigits n = c :: t := by
    cases h : List.replicate (e + 1 - (natDigits n).length) '0' ++ natDigits n with
    | nil =>
      rcases List.append_eq_nil.mp h with ⟨_, h2⟩
      exact absurd h2 (natDigits_ne_nil n)
    | cons c t => exact ⟨c, t, rfl⟩
  have hcd : c.isDigit = true := hall c (by rw [hct]; simp)
  by_cases he : e = 0
  · subst he
    have hz : 0 + 1 - (natDigits n).length = 0 := by omega
    refine ⟨c, t, ?_, hcd⟩
    simp only [serializeNumCore, hz, eq_self_iff_true, if_true]
    rw [hz] at hct
    exact hct
  · simp only [serializeNumCore, if_neg he]
    have hL : e + 1 ≤ (List.replicate (e + 1 - (natDigits n).length) '0'
        ++ natDigits n).length := by
      rw [List.length_append, List.length_replicate]
      omega
    rw [hct] at hL ⊢
    obtain ⟨m, hm⟩ : ∃ m, (c :: t).length - e = m + 1 := by
      refine ⟨(c :: t).length - e - 1, ?_⟩
      simp only [List.length_cons] at hL ⊢
      omega
    rw [hm, List.take_succ_cons]
    exact ⟨c, _, rfl, hcd⟩

/-- `parseNumV` at a head that is not a minus sign falls to the unsigned case. -/
theorem parseNumV_cons_ne_neg (c : Char) (r : List Char) (hc : c ≠ '-') :
    parseNumV (c :: r)
      = (parsePosNum (c :: r)).map (fun p => (Value.num (p.1.1 : Int) p.1.2, p.2)) := by
  unfold parseNumV
  split
  · next heq =>
    injection heq with h1 _
    exact absurd h1 hc
  · rfl

/-- `parseNumV` reads `serializeNum` back exactly. -/
theorem parseNumV_serializeNum (m : Int) (e : Nat) (rest : List Char)
    (hrest : ∀ c cs, rest = c :: cs → c.isDigit = false ∧ c ≠ '.') :
    parseNumV (serializeNum m e ++ rest) = some (.num m e, rest) := by
  by_cases hm : m < 0
  · rw [serializeNum, if_pos hm, List.cons_append]
    show parseNumV ('-' :: (serializeNumCore m.natAbs e ++ rest)) = _
    rw [parseNumV, parsePosNum_serializeNumCore m.natAbs e rest hrest]
    have habs : -(m.natAbs : Int) = m := by omega
    simp only [Option.map]
    rw [habs]
  · rw [serializeNum, if_neg hm]
    obtain ⟨c, cs, hccs, hcd⟩ := serializeNumCore_head m.natAbs e
    have hcm : c ≠ '-' := by
      intro h
      rw [h] at hcd
      exact absurd hcd (by decide)
    rw [hccs, List.cons_append, parseNumV_cons_ne_neg c (cs ++ rest) hcm,
      ← List.cons_append, ← hccs, parsePosNum_serializeNumCore m.natAbs e rest hrest]
    have habs : ((m.natAbs : Nat) : Int) = m := by omega
    simp only [Option.map]
    rw [habs]

/-! ## String round-trip lemmas -/

/-- The emitted hex digit is in the hex alphabet. -/
theorem hexDigitL_isHex (n : Nat) (h : n < 16) : isHexDigitB (hexDigitL n) = true := by
  interval_cases n <;> decide

/-- Reading the emitted hex digit back. -/
theorem hexVal_hexDigitL (n : Nat) (h : n < 16) : hexVal (hexDigitL n) = n := by
  interval_cases n <;> decide

/-- `escapeChar` at a character needing the `\u00XY` form. -/
theorem escapeChar_u00 (c : Char) (h1 : ¬c = '"') (h2 : ¬c = '\\') (h3 : ¬c = '\n')
    (h4 : ¬c = '\r') (h5 : ¬c = '\t')
    (h6 : c.toNat < 32 ∨ c = '<' ∨ c = '>' ∨ c = '&') :
    escapeChar c = ['\\', 'u', '0', '0', hexDigitL (c.toNat / 16), hexDigitL (c.toNat % 16)]
    := by
  unfold escapeChar
  rw [if_neg h1, if_neg h2, if_neg h3, if_neg h4, if_neg h5, if_pos h6]

/-- `escapeChar` at a line/paragraph separator. -/
theorem escapeChar_u202 (c : Char) (h1 : ¬c = '"') (h2 : ¬c = '\\') (h3 : ¬c = '\n')
    (h4 : ¬c = '\r') (h5 : ¬c = '\t')
    (h6 : ¬(c.toNat < 32 ∨ c = '<' ∨ c = '>' ∨ c = '&'))
    (h7 : c.toNat = 8232 ∨ c.toNat = 8233) :
    escapeChar c = ['\\', 'u', '2', '0', '2', hexDigitL (c.toNat % 16)] := by
  unfold escapeChar
  rw [if_neg h1, if_neg h2, if_neg h3, if_neg h4, if_neg h5, if_neg h6, if_pos h7]

/-- `escapeChar` at a character emitted verbatim. -/
theorem escapeChar_plain (c : Char) (h1 : ¬c = '"') (h2 : ¬c = '\\') (h3 : ¬c = '\n')
    (h4 : ¬c = '\r') (h5 : ¬c = '\t')
    (h6 : ¬(c.toNat < 32 ∨ c = '<' ∨ c = '>' ∨ c = '&'))
    (h7 : ¬(c.toNat = 8232 ∨ c.toNat = 8233)) :
    escapeChar c = [c] := by
  unfold escapeChar
  rw [if_neg h1, if_neg h2, if_neg h3, if_neg h4, if_neg h5, if_neg h6, if_neg h7]

/-- The `\uXXXX` escape branch of the string-body parser. -/
theorem parseStrChars_u (a b c2 d : Char) (r : List Char)
    (ha : isHexDigitB a = true) (hb : isHexDigitB b = true)
    (hc : isHexDigitB c2 = true) (hd : isHexDigitB d = true) :
    parseStrChars ('\\' :: 'u' :: a :: b :: c2 :: d :: r)
      = (parseStrChars r).map (fun p =>
          (Char.ofNat (hexVal a * 4096 + hexVal b * 256 + hexVal c2 * 16 + hexVal d)
            :: p.1, p.2)) := by
  rw [parseStrChars.eq_def]
  simp [ha, hb, hc, hd]

/-- The string-body parser decodes the escaped body back to the original
characters and stops at the closing quote. -/
theorem parseStrChars_escape (s rest : List Char) :
    parseStrChars ((s.map escapeChar).flatten ++ '"' :: rest) = some (s, rest) := by
  induction s with
  | nil =>
    rw [parseStrChars.eq_def]
    simp
  | cons c t ih =>
    simp only [List.map_cons, List.flatten_cons, List.append_assoc]
    by_cases h1 : c = '"'
    · subst h1
      have he : escapeChar '"' = ['\\', '"'] := by decide
      rw [he]
      simp only [List.cons_append, List.nil_append]
      rw [parseStrChars.eq_def]
      simp [ih]
    · by_cases h2 : c = '\\'
      · subst h2
        have he : escapeChar '\\' = ['\\', '\\'] := by decide
        rw [he]
        simp only [List.cons_append, List.nil_append]
        rw [parseStrChars.eq_def]
        simp [ih]
      · by_cases h3 : c = '\n'
        · subst h3
          have he : escapeChar '\n' = ['\\', 'n'] := by decide
          rw [he]
          simp only [List.cons_append, List.nil_append]
          rw [parseStrChars.eq_def]
          simp [ih]
        · by_cases h4 : c = '\r'
          · subst h4
            have he : escapeChar '\r' = ['\\', 'r'] := by decide
            rw [he]
            simp only [List.cons_append, List.nil_append]
            rw [parseStrChars.eq_def]
            simp [ih]
          · by_cases h5 : c = '\t'
            · subst h5
              have he : escapeChar '\t' = ['\\', 't'] := by decide
              rw [he]
              simp only [List.cons_append, List.nil_append]
              rw [parseStrChars.eq_def]
              simp [ih]
            · by_cases h6 : c.toNat < 32 ∨ c = '<' ∨ c = '>' ∨ c = '&'
              · have hlt : c.toNat < 256 := by
                  rcases h6 with h | h | h | h
                  · omega
                  · subst h; decide
                  · subst h; decide
                  · subst h; decide
                have hh1 := hexDigitL_isHex (c.toNat / 16) (by omega)
                have hh2 := hexDigitL_isHex (c.toNat % 16) (by omega)
                have hv1 := hexVal_hexDigitL (c.toNat / 16) (by omega)
                have hv2 := hexVal_hexDigitL (c.toNat % 16) (by omega)
                rw [escapeChar_u00 c h1 h2 h3 h4 h5 h6]
                simp only [List.cons_append, List.nil_append]
                rw [parseStrChars_u _ _ _ _ _ (by decide) (by decide) hh1 hh2, ih]
                have harg : hexVal '0' * 4096 + hexVal '0' * 256
                    + hexVal (hexDigitL (c.toNat / 16)) * 16
                    + hexVal (hexDigitL (c.toNat % 16)) = c.toNat := by
                  rw [hv1, hv2]
                  have hz : hexVal '0' = 0 := by decide
                  rw [hz]
                  omega
                rw [harg]
                simp [Char.ofNat_toNat]
              · by_cases h7 : c.toNat = 8232 ∨ c.toNat = 8233
                · have h16 : c.toNat % 16 < 16 := by omega
                  have hh := hexDigitL_isHex (c.toNat % 16) h16
                  have hv := hexVal_hexDigitL (c.toNat % 16) h16
                  rw [escapeChar_u202 c h1 h2 h3 h4 h5 h6 h7]
                  simp only [List.cons_append, List.nil_append]
                  rw [parseStrChars_u _ _ _ _ _ (by decide) (by decide) (by decide) hh, ih]
                  have harg : hexVal '2' * 4096 + hexVal '0' * 256 + hexVal '2' * 16
                      + hexVal (hexDigitL (c.toNat % 16)) = c.toNat := by
                    rw [hv]
                    have ha2 : hexVal '2' = 2 := by decide
                    have ha0 : hexVal '0' = 0 := by decide
                    rw [ha2, ha0]
                    omega
                  rw [harg]
                  simp [Char.ofNat_toNat]
                · rw [escapeChar_plain c h1 h2 h3 h4 h5 h6 h7]
                  simp only [List.cons_append, List.nil_append]
                  rw [parseStrChars.eq_def]
                  simp [h1, h2, ih]

/-! ## Head classification and size lemmas for the parser -/

/-- Every value has positive size. -/
theorem vsize_pos (v : Value) : 1 ≤ vsize v := by
  cases v <;> simp [vsize]

/-- A nonempty element list has positive size. -/
theorem sizeList_pos (x : Value) (t : List Value) : 1 ≤ sizeList (x :: t) := by
  simp only [sizeList]
  omega

/-- A nonempty member list has positive size. -/
theorem msizeList_pos (kv : String × Value) (t : List (String × Value)) :
    1 ≤ msizeList (kv :: t) := by
  simp only [msizeList]
  omega

/-- A digit character is none of the JSON structural characters. -/
theorem digit_ne (c : Char) (h : c.isDigit = true) :
    ¬c = 'n' ∧ ¬c = 't' ∧ ¬c = 'f' ∧ ¬c = '"' ∧ ¬c = '[' ∧ ¬c = '{' ∧ ¬c = ']' ∧
      ¬c = '}' ∧ ¬c = ',' := by
  have hne : ∀ d : Char, d.isDigit = false → ¬c = d := by
    intro d hd he
    rw [he] at h
    rw [h] at hd
    exact absurd hd (by simp)
  exact ⟨hne 'n' (by decide), hne 't' (by decide), hne 'f' (by decide),
    hne '"' (by decide), hne '[' (by decide), hne '{' (by decide),
    hne ']' (by decide), hne '}' (by decide), hne ',' (by decide)⟩

/-- `serializeNum` starts with a minus sign or a digit. -/
theorem serializeNum_head (m : Int) (e : Nat) :
    ∃ c cs, serializeNum m e = c :: cs ∧ (c = '-' ∨ c.isDigit = true) := by
  by_cases hm : m < 0
  · obtain ⟨c, cs, hc, _⟩ := serializeNumCore_head m.natAbs e
    exact ⟨'-', serializeNumCore m.natAbs e, by rw [serializeNum, if_pos hm], Or.inl rfl⟩
  · obtain ⟨c, cs, hc, hcd⟩ := serializeNumCore_head m.natAbs e
    exact ⟨c, cs, by rw [serializeNum, if_neg hm, hc], Or.inr hcd⟩

/-- The serialization of a decoded value starts with a character that closes
no composite: never `]`, `}` or `,`. -/
theorem serializeVal_head (v : Value) (hd : decodedB v = true) :
    ∃ c cs, serializeVal v = c :: cs ∧ ¬c = ']' ∧ ¬c = '}' ∧ ¬c = ',' := by
  have hk : ∀ c : Char, c = 'n' ∨ c = 't' ∨ c = 'f' ∨ c = '"' ∨ c = '[' ∨ c = '{' →
      ¬c = ']' ∧ ¬c = '}' ∧ ¬c = ',' := by
    rintro c (rfl | rfl | rfl | rfl | rfl | rfl) <;> exact ⟨by decide, by decide, by decide⟩
  cases v with
  | num m e =>
    obtain ⟨c, cs, hc, hcc⟩ := serializeNum_head m e
    rcases hcc with rfl | hdig
    · exact ⟨'-', cs, hc, by decide, by decide, by decide⟩
    · have h := digit_ne c hdig
      exact ⟨c, cs, hc, h.2.2.2.2.2.2.1, h.2.2.2.2.2.2.2.1, h.2.2.2.2.2.2.2.2⟩
  | jsonNum s => exact absurd hd (by simp [decodedB])
  | null => exact ⟨'n', _, rfl, hk 'n' (Or.inl rfl)⟩
  | str s => exact ⟨'"', _, rfl, hk '"' (Or.inr (Or.inr (Or.inr (Or.inl rfl))))⟩
  | arr xs => exact ⟨'[', _, rfl, hk '[' (Or.inr (Or.inr (Or.inr (Or.inr (Or.inl rfl)))))⟩
  | obj kvs =>
    exact ⟨'{', _, rfl, hk '{' (Or.inr (Or.inr (Or.inr (Or.inr (Or.inr rfl)))))⟩
  | bool b =>
    cases b with
    | true => exact ⟨'t', _, rfl, hk 't' (Or.inr (Or.inl rfl))⟩
    | false => exact ⟨'f', _, rfl, hk 'f' (Or.inr (Or.inr (Or.inl rfl)))⟩

/-- `String.mk` of a string's character list. -/
theorem strMk_toList (s : String) : String.mk s.toList = s := rfl

/-- `parseV` at a head that is no keyword or composite opener reads a number. -/
theorem parseV_cons_other (fuel : Nat) (c : Char) (r : List Char)
    (h1 : ¬c = 'n') (h2 : ¬c = 't') (h3 : ¬c = 'f') (h4 : ¬c = '"')
    (h5 : ¬c = '[') (h6 : ¬c = '{') :
    parseV (fuel + 1) (c :: r) = parseNumV (c :: r) := by
  rw [parseV.eq_def]
  simp [h1, h2, h3, h4, h5, h6]

/-- The head of a delimiter tail is neither a digit nor a decimal point. -/
theorem delimHead_num_ok (rest : List Char) (h : DelimHead rest) :
    ∀ c cs, rest = c :: cs → c.isDigit = false ∧ c ≠ '.' := by
  intro c cs hc
  subst hc
  rcases h with h | h | h <;> subst h <;> exact ⟨by decide, by decide⟩

/-- The size of a decoded value is bounded by the length of its
serialization (the fuel bound behind `jsonParse`). -/
theorem serialize_size (N : Nat) :
    (∀ v, vsize v ≤ N → decodedB v = true → vsize v ≤ (serializeVal v).length)
    ∧ (∀ xs, sizeList xs ≤ N → decodedListB xs = true →
        sizeList xs ≤ (serializeArr xs).length + 1)
    ∧ (∀ kvs, msizeList kvs ≤ N → decodedMembersB kvs = true →
        msizeList kvs ≤ (serializeObj kvs).length + 1) := by
  induction N with
  | zero =>
    refine ⟨fun v hv _ => absurd (le_trans (vsize_pos v) hv) (by omega), ?_, ?_⟩
    · intro xs hxs _
      cases xs with
      | nil => simp [sizeList, serializeArr]
      | cons x t => exact absurd (le_trans (sizeList_pos x t) hxs) (by omega)
    · intro kvs hkvs _
      cases kvs with
      | nil => simp [msizeList, serializeObj]
      | cons kv t => exact absurd (le_trans (msizeList_pos kv t) hkvs) (by omega)
  | succ N ih =>
    refine ⟨?_, ?_, ?_⟩
    · intro v hv hd
      cases v with
      | null => simp [vsize, serializeVal]
      | bool b => cases b <;> simp [vsize, serializeVal]
      | num m e =>
        obtain ⟨c, cs, hc, _⟩ := serializeNum_head m e
        show vsize (.num m e) ≤ (serializeNum m e).length
        rw [hc]
        simp [vsize]
      | str s =>
        show vsize (.str s) ≤ (serializeString s).length
        simp only [vsize, serializeString, List.length_cons, List.length_append]
        omega
      | jsonNum s => exact absurd hd (by simp [decodedB])
      | arr xs =>
        have hxs : sizeList xs ≤ N := by
          simp only [vsize] at hv
          omega
        have hdl : decodedListB xs = true := by
          simpa [decodedB] using hd
        have := ih.2.1 xs hxs hdl
        show vsize (.arr xs) ≤ ('[' :: serializeArr xs ++ [']']).length
        simp only [vsize, List.length_cons, List.length_append, List.length_singleton]
        omega
      | obj kvs =>
        have hkvs : msizeList kvs ≤ N := by
          simp only [vsize] at hv
          omega
        have hdm : decodedMembersB kvs = true := by
          simp only [decodedB, Bool.and_eq_true] at hd
          exact hd.2
        have := ih.2.2 kvs hkvs hdm
        show vsize (.obj kvs) ≤ ('{' :: serializeObj kvs ++ ['}']).length
        simp only [vsize, List.length_cons, List.length_append, List.length_singleton]
        omega
    · intro xs hxs hdl
      cases xs with
      | nil => simp [sizeList, serializeArr]
      | cons x t =>
        simp only [decodedListB, Bool.and_eq_true] at hdl
        have hx : vsize x ≤ N := by
          simp only [sizeList] at hxs
          omega
        have h1 := ih.1 x hx hdl.1
        cases t with
        | nil =>
          show sizeList [x] ≤ (serializeVal x).length + 1
          simp only [sizeList]
          omega
        | cons y t2 =>
          have hyt : sizeList (y :: t2) ≤ N := by
            have := vsize_pos x
            simp only [sizeList] at hxs ⊢
            omega
          have h2 := ih.2.1 (y :: t2) hyt hdl.2
          show sizeList (x :: y :: t2)
              ≤ (serializeVal x ++ ',' :: serializeArr (y :: t2)).length + 1
          simp only [sizeList, List.length_append, List.length_cons] at h2 ⊢
          omega
    · intro kvs hkvs hdm
      cases kvs with
      | nil => simp [msizeList, serializeObj]
      | cons kv t =>
        obtain ⟨k, v⟩ := kv
        simp only [decodedMembersB, Bool.and_eq_true] at hdm
        have hx : vsize v ≤ N := by
          simp only [msizeList] at hkvs
          omega
        have h1 := ih.1 v hx hdm.1
        cases t with
        | nil =>
          show msizeList [(k, v)] ≤ (serializeString k ++ ':' :: serializeVal v).length + 1
          simp only [msizeList, List.length_append, List.length_cons]
          omega
        | cons kv2 t2 =>
          have hyt : msizeList (kv2 :: t2) ≤ N := by
            have := vsize_pos v
            simp only [msizeList] at hkvs ⊢
            omega
          have h2 := ih.2.2 (kv2 :: t2) hyt hdm.2
          show msizeList ((k, v) :: kv2 :: t2)
              ≤ (serializeString k ++ ':' :: serializeVal v
                  ++ ',' :: serializeObj (kv2 :: t2)).length + 1
          simp only [msizeList, List.length_append, List.length_cons] at h2 ⊢
          omega

/-- `parseV` on `[` followed by a non-`]` character enters the element loop. -/
theorem parseV_lbracket (f : Nat) (c : Char) (r : List Char) (hne : ¬c = ']') :
    parseV (f + 1) ('[' :: c :: r) = parseElems f (c :: r) [] := by
  rw [parseV.eq_def]
  simp [hne]

/-- `parseV` on `{` followed by a non-`}` character enters the member loop. -/
theorem parseV_lbrace (f : Nat) (c : Char) (r : List Char) (hne : ¬c = '}') :
    parseV (f + 1) ('{' :: c :: r) = parseMembers f (c :: r) [] := by
  rw [parseV.eq_def]
  simp [hne]

/-- Abstract-head form of `parseV_lbracket`. -/
theorem parseV_arr_head (f : Nat) (bs : List Char) (c : Char) (cs : List Char)
    (hb : bs = c :: cs) (hne : ¬c = ']') :
    parseV (f + 1) ('[' :: bs) = parseElems f bs [] := by
  rw [hb]
  exact parseV_lbracket f c cs hne

/-- Abstract-head form of `parseV_lbrace`. -/
theorem parseV_obj_head (f : Nat) (bs : List Char) (c : Char) (cs : List Char)
    (hb : bs = c :: cs) (hne : ¬c = '}') :
    parseV (f + 1) ('{' :: bs) = parseMembers f bs [] := by
  rw [hb]
  exact parseV_lbrace f c cs hne

/-- The JSON parser reads back the serialization of every decoded value:
the mutual induction behind the `ToGeoJSON` round-trip. -/
theorem parse_serialize (fuel : Nat) :
    (∀ v rest, decodedB v = true → vsize v ≤ fuel → DelimHead rest →
      parseV fuel (serializeVal v ++ rest) = some (v, rest))
    ∧ (∀ xs rest acc, decodedListB xs = true → xs ≠ [] → sizeList xs ≤ fuel →
        DelimHead rest →
        parseElems fuel (serializeArr xs ++ ']' :: rest) acc
          = some (.arr (acc ++ xs), rest))
    ∧ (∀ kvs rest acc, decodedMembersB kvs = true → kvs ≠ [] → msizeList kvs ≤ fuel →
        DelimHead rest →
        parseMembers fuel (serializeObj kvs ++ '}' :: rest) acc
          = some (.obj (acc ++ kvs), rest)) := by
  induction fuel with
  | zero =>
    refine ⟨fun v rest _ hv _ => absurd (le_trans (vsize_pos v) hv) (by omega), ?_, ?_⟩
    · intro xs rest acc _ hne hs _
      cases xs with
      | nil => exact absurd rfl hne
      | cons x t => exact absurd (le_trans (sizeList_pos x t) hs) (by omega)
    · intro kvs rest acc _ hne hs _
      cases kvs with
      | nil => exact absurd rfl hne
      | cons kv t => exact absurd (le_trans (msizeList_pos kv t) hs) (by omega)
  | succ f ih =>
    refine ⟨?_, ?_, ?_⟩
    · intro v rest hd hv hrest
      cases v with
      | null =>
        show parseV (f + 1) ('n' :: 'u' :: 'l' :: 'l' :: rest) = _
        rw [parseV.eq_def]
        simp
      | bool b =>
        cases b with
        | true =>
          show parseV (f + 1) ('t' :: 'r' :: 'u' :: 'e' :: rest) = _
          rw [parseV.eq_def]
          simp
        | false =>
          show parseV (f + 1) ('f' :: 'a' :: 'l' :: 's' :: 'e' :: rest) = _
          rw [parseV.eq_def]
          simp
      | num m e =>
        show parseV (f + 1) (serializeNum m e ++ rest) = _
        obtain ⟨c, cs, hc, hcc⟩ := serializeNum_head m e
        have h6 : ¬c = 'n' ∧ ¬c = 't' ∧ ¬c = 'f' ∧ ¬c = '"' ∧ ¬c = '[' ∧ ¬c = '{' := by
          rcases hcc with rfl | hdig
          · exact ⟨by decide, by decide, by decide, by decide, by decide, by decide⟩
          · have h := digit_ne c hdig
            exact ⟨h.1, h.2.1, h.2.2.1, h.2.2.2.1, h.2.2.2.2.1, h.2.2.2.2.2.1⟩
        rw [hc, List.cons_append,
          parseV_cons_other f c (cs ++ rest) h6.1 h6.2.1 h6.2.2.1 h6.2.2.2.1
            h6.2.2.2.2.1 h6.2.2.2.2.2,
          ← List.cons_append, ← hc,
          parseNumV_serializeNum m e rest (delimHead_num_ok rest hrest)]
      | str s =>
        show parseV (f + 1) (serializeString s ++ rest) = _
        rw [serializeString, List.cons_append, List.cons_append, List.append_assoc,
          List.singleton_append, parseV.eq_def]
        simp [parseStrChars_escape, strMk_toList]
      | jsonNum s => exact absurd hd (by simp [decodedB])
      | arr xs =>
        cases xs with
        | nil =>
          show parseV (f + 1) ('[' :: ']' :: rest) = _
          rw [parseV.eq_def]
          simp
        | cons x t =>
          have hdl : decodedListB (x :: t) = true := by simpa [decodedB] using hd
          have hdx : decodedB x = true := by
            simp only [decodedListB, Bool.and_eq_true] at hdl
            exact hdl.1
          obtain ⟨c, cs, hc, hc1, _, _⟩ := serializeVal_head x hdx
          obtain ⟨tl, htl⟩ : ∃ tl, serializeArr (x :: t) = serializeVal x ++ tl := by
            cases t with
            | nil => exact ⟨[], by simp [serializeArr]⟩
            | cons y t2 => exact ⟨',' :: serializeArr (y :: t2), rfl⟩
          have hsz : sizeList (x :: t) ≤ f := by
            simp only [vsize] at hv
            omega
          have hhead : serializeArr (x :: t) ++ ']' :: rest
              = c :: (cs ++ (tl ++ ']' :: rest)) := by
            rw [htl, hc]
            simp [List.append_assoc]
          have hform : serializeVal (.arr (x :: t)) ++ rest
              = '[' :: (serializeArr (x :: t) ++ ']' :: rest) := by
            show ('[' :: (serializeArr (x :: t) ++ [']'])) ++ rest = _
            rw [List.cons_append, List.append_assoc, List.singleton_append]
          rw [hform, parseV_arr_head f _ c (cs ++ (tl ++ ']' :: rest)) hhead hc1,
            ih.2.1 (x :: t) rest [] hdl (by simp) hsz hrest]
          simp
      | obj kvs =>
        cases kvs with
        | nil =>
          show parseV (f + 1) ('{' :: '}' :: rest) = _
          rw [parseV.eq_def]
          simp
        | cons kv t =>
          obtain ⟨k, v⟩ := kv
          have hdm : decodedMembersB ((k, v) :: t) = true := by
            simp only [decodedB, Bool.and_eq_true] at hd
            exact hd.2
          obtain ⟨R, hR⟩ : ∃ R, serializeObj ((k, v) :: t) = serializeString k ++ R := by
            cases t with
            | nil => exact ⟨':' :: serializeVal v, by simp [serializeObj]⟩
            | cons kv2 t2 =>
              exact ⟨':' :: serializeVal v ++ ',' :: serializeObj (kv2 :: t2),
                by simp [serializeObj]⟩
          have hsz : msizeList ((k, v) :: t) ≤ f := by
            simp only [vsize] at hv
            omega
          have hhead : serializeObj ((k, v) :: t) ++ '}' :: rest
              = '"' :: (((k.toList.map escapeChar).flatten ++ ['"'])
                  ++ (R ++ '}' :: rest)) := by
            rw [hR, serializeString]
            simp [List.append_assoc]
          have hform : serializeVal (.obj ((k, v) :: t)) ++ rest
              = '{' :: (serializeObj ((k, v) :: t) ++ '}' :: rest) := by
            show ('{' :: (serializeObj ((k, v) :: t) ++ ['}'])) ++ rest = _
            rw [List.cons_append, List.append_assoc, List.singleton_append]
          rw [hform,
            parseV_obj_head f _ '"'
              (((k.toList.map escapeChar).flatten ++ ['"']) ++ (R ++ '}' :: rest))
              hhead (by decide),
            ih.2.2 ((k, v) :: t) rest [] hdm (by simp) hsz hrest]
          simp
    · intro xs rest acc hdl hne hs hrest
      cases xs with
      | nil => exact absurd rfl hne
      | cons x t =>
        simp only [decodedListB, Bool.and_eq_true] at hdl
        cases t with
        | nil =>
          have hvx : vsize x ≤ f := by
            simp only [sizeList] at hs
            omega
          show parseElems (f + 1) (serializeVal x ++ ']' :: rest) acc = _
          simp only [parseElems]
          rw [ih.1 x (']' :: rest) hdl.1 hvx (by simp [DelimHead])]
          simp
        | cons y t2 =>
          have hvx : vsize x ≤ f := by
            have := sizeList_pos y t2
            simp only [sizeList] at hs ⊢
            omega
          have hsyt : sizeList (y :: t2) ≤ f := by
            have := vsize_pos x
            simp only [sizeList] at hs ⊢
            omega
          have hcs : serializeArr (x :: y :: t2) ++ ']' :: rest
              = serializeVal x ++ (',' :: (serializeArr (y :: t2) ++ ']' :: rest)) := by
            show (serializeVal x ++ ',' :: serializeArr (y :: t2)) ++ ']' :: rest = _
            simp [List.append_assoc]
          rw [hcs]
          simp only [parseElems]
          rw [ih.1 x (',' :: (serializeArr (y :: t2) ++ ']' :: rest)) hdl.1 hvx
            (by simp [DelimHead])]
          simp only []
          rw [ih.2.1 (y :: t2) rest (acc ++ [x]) hdl.2 (by simp) hsyt hrest]
          simp
    · intro kvs rest acc hdm hne hs hrest
      cases kvs with
      | nil => exact absurd rfl hne
      | cons kv t =>
        obtain ⟨k, v⟩ := kv
        simp only [decodedMembersB, Bool.and_eq_true] at hdm
        cases t with
        | nil =>
          have hvv : vsize v ≤ f := by
            simp only [msizeList] at hs
            omega
          have hcs : serializeObj [(k, v)] ++ '}' :: rest
              = '"' :: ((k.toList.map escapeChar).flatten
                  ++ '"' :: (':' :: (serializeVal v ++ '}' :: rest))) := by
            simp [serializeObj, serializeString, List.append_assoc]
          rw [hcs]
          simp only [parseMembers, parseStrChars_escape]
          rw [ih.1 v ('}' :: rest) hdm.1 hvv (by simp [DelimHead])]
          simp [strMk_toList]
        | cons kv2 t2 =>
          have hvv : vsize v ≤ f := by
            have := msizeList_pos kv2 t2
            simp only [msizeList] at hs ⊢
            omega
          have hst2 : msizeList (kv2 :: t2) ≤ f := by
            have := vsize_pos v
            simp only [msizeList] at hs ⊢
            omega
          have hcs : serializeObj ((k, v) :: kv2 :: t2) ++ '}' :: rest
              = '"' :: ((k.toList.map escapeChar).flatten
                  ++ '"' :: (':' :: (serializeVal v
                    ++ ',' :: (serializeObj (kv2 :: t2) ++ '}' :: rest)))) := by
            simp [serializeObj, serializeString, List.append_assoc]
          rw [hcs]
          simp only [parseMembers, parseStrChars_escape]
          rw [ih.1 v (',' :: (serializeObj (kv2 :: t2) ++ '}' :: rest)) hdm.1 hvv
            (by simp [DelimHead])]
          simp only []
          rw [ih.2.2 (kv2 :: t2) rest (acc ++ [(String.mk k.toList, v)]) hdm.2
            (by simp) hst2 hrest]
          simp [strMk_toList]

/-- Full-document round-trip: `jsonParse` inverts `jsonMarshal` on decoded
values. -/
theorem jsonParse_jsonMarshal (v : Value) (hd : decodedB v = true) :
    jsonParse (jsonMarshal v) = some v := by
  have hsize := (serialize_size (vsize v)).1 v le_rfl hd
  have hA := (parse_serialize ((serializeVal v).length + 1)).1 v [] hd (by omega)
    (by simp [DelimHead])
  rw [List.append_nil] at hA
  have ht : (jsonMarshal v).toList = serializeVal v := rfl
  have hl : (jsonMarshal v).length = (serializeVal v).length := rfl
  unfold jsonParse
  rw [ht, hl, hA]

/-- C8: GeoJSON round-trip.  For every decoded JSON value `v` other than
null, `ToGeoJSON` returns the string `json.Marshal v` verbatim with no error
and no re-validation, and parsing that string back yields exactly `v`; a nil
input yields null without error.  In particular the point object
`{"type":"Point","coordinates":[-73.96481,40.633247]}` becomes the string
`{"coordinates":[-73.96481,40.633247],"type":"Point"}` (keys in map order)
whose parsed JSON is the object again with exact value fidelity. -/
theorem c8_geojson_roundtrip :
    (∀ v, decodedB v = true → v ≠ Value.null →
      ToGeoJSON v = (.str (jsonMarshal v), none) ∧ jsonParse (jsonMarshal v) = some v)
    ∧ ToGeoJSON .null = (.null, none)
    ∧ ToGeoJSON (Value.obj [("coordinates", .arr [.num (-7396481) 5, .num 40633247 6]),
        ("type", .str "Point")])
      = (.str "\x7b\"coordinates\":[-73.96481,40.633247],\"type\":\"Point\"\x7d", none)
    ∧ jsonParse "\x7b\"coordinates\":[-73.96481,40.633247],\"type\":\"Point\"\x7d"
      = some (Value.obj [("coordinates", .arr [.num (-7396481) 5, .num 40633247 6]),
          ("type", .str "Point")]) := by
  refine ⟨?_, rfl, rfl, rfl⟩
  intro v hd hne
  refine ⟨?_, jsonParse_jsonMarshal v hd⟩
  cases v with
  | null => exact absurd rfl hne
  | bool b => rfl
  | num m e => rfl
  | str s => rfl
  | jsonNum s => rfl
  | arr xs => rfl
  | obj kvs => rfl

/-- C8 witness: the round-trip applied to the concrete point object. -/
theorem c8_geojson_roundtrip_witness :
    decodedB (Value.obj [("coordinates", .arr [.num (-7396481) 5, .num 40633247 6]),
        ("type", .str "Point")]) = true
    ∧ jsonParse (jsonMarshal (Value.obj
        [("coordinates", .arr [.num (-7396481) 5, .num 40633247 6]),
          ("type", .str "Point")]))
      = some (Value.obj [("coordinates", .arr [.num (-7396481) 5, .num 40633247 6]),
          ("type", .str "Point")]) :=
  ⟨rfl, (c8_geojson_roundtrip.1
      (Value.obj [("coordinates", .arr [.num (-7396481) 5, .num 40633247 6]),
        ("type", .str "Point")])
      rfl (fun h => Value.noConfusion h)).2⟩
